import Mathlib

/-!
Verification of the PycQED waveform-synthesis core.

This file shallowly embeds the pulse-shape catalog of
`pycqed/measurement/waveform_control/pulse_library.py`, the FIR filter of
`pycqed/measurement/waveform_control/fluxpulse_predistortion.py` and the
Martinis-Geller flux waveform of
`pycqed/measurement/waveform_control_CC/waveforms_flux.py`.

Embedding conventions:
* Pulse parameters (Python floats) are modelled as rationals; generated
  waveform samples are real numbers, with rationals cast in where the source
  mixes parameters into sample formulas.
* `scipy.special.erf` is not available in Mathlib, so waveform generators
  that use it take an abstract function `erf : ℝ → ℝ` as an argument; every
  theorem below either holds for all such functions or only exercises the
  `gaussian_filter_sigma == 0` branch in which `erf` is dead code.
* NumPy boolean-mask multiplication `wave * (cond)` is modelled by
  multiplying with `boolInd cond` (1 if the condition holds, 0 otherwise).
* Python dictionaries keyed by channel name are modelled either by
  association lists (`List (String × ℚ)`) or, for the two-channel FLIP
  pulses, by the same `if chan = channel then ... else ...` selection the
  dict literal `{channel: a, channel2: b}` performs.
* `algorithm_time()` is modelled as a field `t0`; the spec's invariant that
  it is assigned before use is outside the scope of the claims below.
-/

namespace PycQED

noncomputable section

/-- Element of the list returned by the `hashables` methods: a mix of a type
tag (`type(self)` in the source), booleans and numbers. -/
inductive HashElem where
  | tag (s : String)
  | bool (b : Bool)
  | num (q : ℚ)
deriving DecidableEq

/-- Python's `%` on rationals (sign follows the divisor):
`a % b = a - b * floor(a / b)`. -/
def pythonMod (a b : ℚ) : ℚ := a - b * ⌊a / b⌋

/-- Indicator used to model NumPy boolean-array multiplication. -/
def boolInd (c : Prop) [Decidable c] : ℝ := if c then 1 else 0

/-- Indicator used to model Python boolean-times-number products on
rational-valued parameters (e.g. `360 * self.phaselock * ...`). -/
def boolIndQ (b : Bool) : ℚ := if b then 1 else 0

/-- `np.deg2rad`. -/
def deg2rad (x : ℝ) : ℝ := x * (Real.pi / 180)

/-- Scalar (per-sample) form of `pulse_library.apply_modulation`: the source
operates elementwise on sample arrays, so one sample time `tval` is mapped to
the pair of the I and Q output samples obtained from the envelope samples
`ienv`, `qenv`. -/
def apply_modulation (ienv qenv tval : ℝ)
    (mod_frequency phase phi_skew alpha tval_phaseref : ℝ) : ℝ × ℝ :=
  let phi := 360 * mod_frequency * (tval - tval_phaseref) + phase
  let phii := phi + phi_skew
  let phiq := phi + 90
  let k := Real.sqrt |alpha / Real.cos (deg2rad phi_skew)|
  (k * (ienv * Real.cos (deg2rad phii) + qenv * Real.sin (deg2rad phii)),
   k * (ienv * Real.cos (deg2rad phiq) + qenv * Real.sin (deg2rad phiq)) / alpha)

/-! ### SquarePulse -/

/-- Parameters of `SquarePulse` (`pulse_params` plus the channel list set up
by `__init__` and the assigned `algorithm_time`). -/
structure SquarePulse where
  channels : List String
  amplitude : ℚ
  length : ℚ
  t0 : ℚ

/-- `SquarePulse.chan_wf`: `np.ones(len(tvals)) * self.amplitude`. -/
def SquarePulse.chan_wf (p : SquarePulse) (chan : String) (tvals : List ℝ) :
    List ℝ :=
  (List.replicate tvals.length (1 : ℝ)).map (fun one => one * (p.amplitude : ℝ))

/-! ### BufferedSquarePulse -/

/-- Parameters of `BufferedSquarePulse`. -/
structure BufferedSquarePulse where
  channels : List String
  amplitude : ℚ
  pulse_length : ℚ
  buffer_length_start : ℚ
  buffer_length_end : ℚ
  gaussian_filter_sigma : ℚ
  t0 : ℚ

/-- `BufferedSquarePulse.chan_wf`. Note that the source never inspects the
`chan` argument. `tvals[0]` is modelled by `tvals.headD 0` (the source
presumes a non-empty sample grid). -/
def BufferedSquarePulse.chan_wf (erf : ℝ → ℝ) (p : BufferedSquarePulse)
    (chan : String) (tvals : List ℝ) : List ℝ :=
  if p.gaussian_filter_sigma = 0 then
    tvals.map fun t =>
      1 * (p.amplitude : ℝ)
        * boolInd (tvals.headD 0 + (p.buffer_length_start : ℝ) ≤ t)
        * boolInd (t < tvals.headD 0 + (p.buffer_length_start : ℝ)
            + (p.pulse_length : ℝ))
  else
    let tstart := tvals.headD 0 + (p.buffer_length_start : ℝ)
    let tend := tvals.headD 0 + (p.buffer_length_start : ℝ) + (p.pulse_length : ℝ)
    let scaling := 1 / Real.sqrt 2 / (p.gaussian_filter_sigma : ℝ)
    tvals.map fun t =>
      0.5 * (erf ((t - tstart) * scaling) - erf ((t - tend) * scaling))
        * (p.amplitude : ℝ)

/-! ### SSB_DRAG_pulse -/

/-- Parameters of `SSB_DRAG_pulse` (both output channels assumed set). -/
structure SSB_DRAG_pulse where
  I_channel : String
  Q_channel : String
  amplitude : ℚ
  sigma : ℚ
  nr_sigma : ℚ
  motzoi : ℚ
  mod_frequency : ℚ
  phase : ℚ
  alpha : ℚ
  phi_skew : ℚ
  phaselock : Bool
  t0 : ℚ

/-- The `channels` property of `SSB_DRAG_pulse`. -/
def SSB_DRAG_pulse.channels (p : SSB_DRAG_pulse) : List String :=
  [p.I_channel, p.Q_channel]

/-- Local `half = nr_sigma * sigma / 2` of `SSB_DRAG_pulse.chan_wf`. -/
def SSB_DRAG_pulse.half (p : SSB_DRAG_pulse) : ℝ :=
  (p.nr_sigma : ℝ) * (p.sigma : ℝ) / 2

/-- Local `tc = algorithm_time() + half` of `SSB_DRAG_pulse.chan_wf`. -/
def SSB_DRAG_pulse.tc (p : SSB_DRAG_pulse) : ℝ := (p.t0 : ℝ) + p.half

/-- The masked Gaussian envelope computed by `SSB_DRAG_pulse.chan_wf` before
modulation:
`(exp(-(t-tc)^2/(2 sigma^2)) - exp(-half^2/(2 sigma^2))) * amplitude
  * (t - tc >= -half) * (t - tc < half)`. -/
def SSB_DRAG_pulse.gauss_env (p : SSB_DRAG_pulse) (t : ℝ) : ℝ :=
  (Real.exp (-0.5 * (t - p.tc) ^ 2 / (p.sigma : ℝ) ^ 2)
      - Real.exp (-0.5 * p.half ^ 2 / (p.sigma : ℝ) ^ 2))
    * ((p.amplitude : ℝ) * boolInd (-p.half ≤ t - p.tc)
        * boolInd (t - p.tc < p.half))

/-- The DRAG quadrature `-motzoi * (t - tc) * gauss_env / sigma`. -/
def SSB_DRAG_pulse.deriv_gauss_env (p : SSB_DRAG_pulse) (t : ℝ) : ℝ :=
  -(p.motzoi : ℝ) * (t - p.tc) * p.gauss_env t / (p.sigma : ℝ)

/-- `SSB_DRAG_pulse.chan_wf`: modulated I/Q outputs, all-zero array for any
other channel. -/
def SSB_DRAG_pulse.chan_wf (p : SSB_DRAG_pulse) (channel : String)
    (tvals : List ℝ) : List ℝ :=
  if channel = p.I_channel then
    tvals.map fun t =>
      (apply_modulation (p.gauss_env t) (p.deriv_gauss_env t) t
        (p.mod_frequency : ℝ) (p.phase : ℝ) (p.phi_skew : ℝ) (p.alpha : ℝ)
        (if p.phaselock then 0 else p.tc)).1
  else if channel = p.Q_channel then
    tvals.map fun t =>
      (apply_modulation (p.gauss_env t) (p.deriv_gauss_env t) t
        (p.mod_frequency : ℝ) (p.phase : ℝ) (p.phi_skew : ℝ) (p.alpha : ℝ)
        (if p.phaselock then 0 else p.tc)).2
  else tvals.map fun _ => 0

/-- `SSB_DRAG_pulse.hashables`. The phase entry adds
`360 * phaselock * mod_frequency * (algorithm_time() + nr_sigma*sigma/2)`
to the stored phase and is not reduced modulo 360. -/
def SSB_DRAG_pulse.hashables (p : SSB_DRAG_pulse) (tstart : ℚ)
    (channel : String) : List HashElem :=
  if channel ∉ p.channels then []
  else
    [.tag ("SSB_DRAG_pulse"), .num (p.t0 - tstart),
     .bool (channel == p.I_channel), .num p.amplitude, .num p.sigma,
     .num p.nr_sigma, .num p.motzoi, .num p.mod_frequency, .num p.alpha,
     .num p.phi_skew,
     .num (p.phase + 360 * boolIndQ p.phaselock * p.mod_frequency
        * (p.t0 + p.nr_sigma * p.sigma / 2))]

/-! ### GaussFilteredCosIQPulse -/

/-- Parameters of `GaussFilteredCosIQPulse`. -/
structure GaussFilteredCosIQPulse where
  I_channel : String
  Q_channel : String
  amplitude : ℚ
  pulse_length : ℚ
  mod_frequency : ℚ
  phase : ℚ
  nr_sigma : ℚ
  alpha : ℚ
  phi_skew : ℚ
  gaussian_filter_sigma : ℚ
  phase_lock : Bool
  t0 : ℚ

/-- The `channels` list of `GaussFilteredCosIQPulse`. -/
def GaussFilteredCosIQPulse.channels (p : GaussFilteredCosIQPulse) :
    List String := [p.I_channel, p.Q_channel]

/-- `GaussFilteredCosIQPulse.chan_wf`. The source returns `I_mod` for the I
channel, `Q_mod` for the Q channel, and falls off the end of the function
(returning Python's `None`) for any other channel; the latter is modelled by
`Option.none`. -/
def GaussFilteredCosIQPulse.chan_wf (erf : ℝ → ℝ)
    (p : GaussFilteredCosIQPulse) (chan : String) (tvals : List ℝ) :
    Option (List ℝ) :=
  let wave : ℝ → ℝ := fun t =>
    if p.gaussian_filter_sigma = 0 then
      1 * (p.amplitude : ℝ) * boolInd (tvals.headD 0 ≤ t)
        * boolInd (t < tvals.headD 0 + (p.pulse_length : ℝ))
    else
      let tstart := tvals.headD 0
        + 0.5 * (p.gaussian_filter_sigma : ℝ) * (p.nr_sigma : ℝ)
      let tend := tstart + (p.pulse_length : ℝ)
      let scaling := 1 / Real.sqrt 2 / (p.gaussian_filter_sigma : ℝ)
      0.5 * (erf ((t - tstart) * scaling) - erf ((t - tend) * scaling))
        * (p.amplitude : ℝ)
  if chan = p.I_channel then
    some (tvals.map fun t =>
      (apply_modulation (wave t) 0 t (p.mod_frequency : ℝ) (p.phase : ℝ)
        (p.phi_skew : ℝ) (p.alpha : ℝ)
        (if p.phase_lock then 0 else (p.t0 : ℝ))).1)
  else if chan = p.Q_channel then
    some (tvals.map fun t =>
      (apply_modulation (wave t) 0 t (p.mod_frequency : ℝ) (p.phase : ℝ)
        (p.phi_skew : ℝ) (p.alpha : ℝ)
        (if p.phase_lock then 0 else (p.t0 : ℝ))).2)
  else none

/-- `GaussFilteredCosIQPulse.hashables`. The phase entry adds
`360 * (not phase_lock) * mod_frequency * algorithm_time()` to the stored
phase and is not reduced modulo 360. -/
def GaussFilteredCosIQPulse.hashables (p : GaussFilteredCosIQPulse)
    (tstart : ℚ) (channel : String) : List HashElem :=
  if channel ∉ p.channels then []
  else
    [.tag ("GaussFilteredCosIQPulse"), .num (p.t0 - tstart),
     .bool (channel == p.I_channel), .num p.amplitude, .num p.mod_frequency,
     .num p.gaussian_filter_sigma, .num p.nr_sigma, .num p.pulse_length,
     .num p.alpha, .num p.phi_skew,
     .num (p.phase + 360 * boolIndQ (!p.phase_lock) * p.mod_frequency * p.t0)]

/-! ### BufferedCZPulse (hashables only; the claims below do not touch its
waveform) -/

/-- Parameters of `BufferedCZPulse`; `aux_channels_dict` is an association
list from auxiliary channel names to amplitudes. -/
structure BufferedCZPulse where
  channel : String
  aux_channels_dict : List (String × ℚ)
  amplitude : ℚ
  frequency : ℚ
  phase : ℚ
  pulse_length : ℚ
  buffer_length_start : ℚ
  buffer_length_end : ℚ
  extra_buffer_aux_pulse : ℚ
  gaussian_filter_sigma : ℚ
  t0 : ℚ

/-- The `channels` list set up by `BufferedCZPulse.__init__`. -/
def BufferedCZPulse.channels (p : BufferedCZPulse) : List String :=
  p.channel :: p.aux_channels_dict.map Prod.fst

/-- `BufferedCZPulse.hashables`. The phase entry is `self.phase % 360`. -/
def BufferedCZPulse.hashables (p : BufferedCZPulse) (tstart : ℚ)
    (channel : String) : List HashElem :=
  if channel ∉ p.channels then []
  else
    let amp := if channel = p.channel then p.amplitude
      else ((p.aux_channels_dict.lookup channel).getD 0)
    let buffer_start := if channel = p.channel then p.buffer_length_start
      else p.buffer_length_start - p.extra_buffer_aux_pulse
    let buffer_end := if channel = p.channel then p.buffer_length_end
      else p.buffer_length_end - p.extra_buffer_aux_pulse
    let pulse_length := if channel = p.channel then p.pulse_length
      else p.pulse_length + 2 * p.extra_buffer_aux_pulse
    [.tag ("BufferedCZPulse"), .num (p.t0 - tstart), .num amp,
     .num pulse_length, .num buffer_start, .num buffer_end,
     .num p.gaussian_filter_sigma, .num p.frequency,
     .num (pythonMod p.phase 360)]

/-! ### CosPulse -/

/-- Parameters of `CosPulse`. -/
structure CosPulse where
  channel : String
  amplitude : ℚ
  length : ℚ
  frequency : ℚ
  phase : ℚ
  t0 : ℚ

/-- `CosPulse.hashables`. The phase entry is
`(phase + frequency * tstart * 360) % 360`. -/
def CosPulse.hashables (p : CosPulse) (tstart : ℚ) (channel : String) :
    List HashElem :=
  if channel ∉ [p.channel] then []
  else
    [.tag ("CosPulse"), .num (p.t0 - tstart), .num p.amplitude, .num p.length,
     .num p.frequency,
     .num (pythonMod (p.phase + p.frequency * tstart * 360) 360)]

/-! ### NZTransitionControlledPulse -/

/-- Per-channel parameters consumed by one iteration of the `zip` loop in
`NZTransitionControlledPulse.__init__` (after the scalar-to-list
broadcasting at the top of the constructor). -/
structure NZTransChanParams where
  main_len : ℚ
  main_amp : ℚ
  trans_len : ℚ
  trans_amp : ℚ
  amp_offset : ℚ

/-- The six segment amplitudes `[0, ma+ao, ta, -ta, -ma+ao, 0]` appended for
one channel by `NZTransitionControlledPulse.__init__`. -/
def nzTransAmplitudes (ma ta ao : ℚ) : List ℚ :=
  [0, ma + ao, ta, -ta, -ma + ao, 0]

/-- The six segment lengths
`[buffer_start, ml/2, (tl - ml*ao/ta)/2, (tl + ml*ao/ta)/2, ml/2, buffer_end]`
appended for one channel by `NZTransitionControlledPulse.__init__`. -/
def nzTransLengths (bs be ml tl ta ao : ℚ) : List ℚ :=
  [bs, ml / 2, (tl - ml * ao / ta) / 2, (tl + ml * ao / ta) / 2, ml / 2, be]

/-- The per-channel loop of `NZTransitionControlledPulse.__init__`: for each
channel it checks `assert abs(ml * ao) < abs(tl * ta)` and builds the
segment length and amplitude lists; a failed assertion aborts construction
(modelled by `none`). -/
def nzTransInit (bs be : ℚ) : List NZTransChanParams →
    Option (List (List ℚ × List ℚ))
  | [] => some []
  | c :: rest =>
    if |c.main_len * c.amp_offset| < |c.trans_len * c.trans_amp| then
      (nzTransInit bs be rest).map fun tail =>
        (nzTransLengths bs be c.main_len c.trans_len c.trans_amp c.amp_offset,
          nzTransAmplitudes c.main_amp c.trans_amp c.amp_offset) :: tail
    else none

/-! ### NZBufferedCZPulse -/

/-- Parameters of `NZBufferedCZPulse`. -/
structure NZBufferedCZPulse where
  channel : String
  aux_channels_dict : List (String × ℚ)
  amplitude : ℚ
  alpha : ℚ
  frequency : ℚ
  phase : ℚ
  pulse_length : ℚ
  buffer_length_start : ℚ
  buffer_length_end : ℚ
  extra_buffer_aux_pulse : ℚ
  gaussian_filter_sigma : ℚ
  t0 : ℚ

/-- `self.length1 = alpha * pulse_length / (alpha + 1)` set by
`NZBufferedCZPulse.__init__`. -/
def NZBufferedCZPulse.length1 (p : NZBufferedCZPulse) : ℚ :=
  p.alpha * p.pulse_length / (p.alpha + 1)

/-- `NZBufferedCZPulse.chan_wf`: two square lobes of amplitudes `amp1` and
`amp2 = -amp1*alpha`, with the auxiliary-channel adjustments of the source
for `chan != self.channel`. -/
def NZBufferedCZPulse.chan_wf (erf : ℝ → ℝ) (p : NZBufferedCZPulse)
    (chan : String) (tvals : List ℝ) : List ℝ :=
  let amp1 : ℝ := if chan = p.channel then (p.amplitude : ℝ)
    else ((p.aux_channels_dict.lookup chan).getD 0 : ℝ) * (p.amplitude : ℝ)
  let amp2 : ℝ := -amp1 * (p.alpha : ℝ)
  let buffer_start : ℝ := if chan = p.channel then (p.buffer_length_start : ℝ)
    else (p.buffer_length_start : ℝ) - (p.extra_buffer_aux_pulse : ℝ)
  let pulse_length : ℝ := if chan = p.channel then (p.pulse_length : ℝ)
    else (p.pulse_length : ℝ) + 2 * (p.extra_buffer_aux_pulse : ℝ)
  let l1 : ℝ := if chan = p.channel then (p.length1 : ℝ)
    else (p.alpha : ℝ) * pulse_length / ((p.alpha : ℝ) + 1)
  if p.gaussian_filter_sigma = 0 then
    tvals.map fun t =>
      1 * amp1 * boolInd (tvals.headD 0 + buffer_start ≤ t)
          * boolInd (t < tvals.headD 0 + buffer_start + l1)
        + 1 * amp2 * boolInd (tvals.headD 0 + buffer_start + l1 ≤ t)
          * boolInd (t < tvals.headD 0 + buffer_start + pulse_length)
  else
    let tstart := tvals.headD 0 + buffer_start
    let tend := tvals.headD 0 + buffer_start + l1
    let tend2 := tvals.headD 0 + buffer_start + pulse_length
    let scaling := 1 / Real.sqrt 2 / (p.gaussian_filter_sigma : ℝ)
    tvals.map fun t =>
      0.5 * (amp1 * erf ((t - tstart) * scaling)
        - amp1 * erf ((t - tend) * scaling)
        + amp2 * erf ((t - tend) * scaling)
        - amp2 * erf ((t - tend2) * scaling))

/-! ### BufferedNZFLIPPulse -/

/-- Parameters of `BufferedNZFLIPPulse`. -/
structure BufferedNZFLIPPulse where
  channel : String
  channel2 : String
  amplitude : ℚ
  amplitude2 : ℚ
  alpha : ℚ
  pulse_length : ℚ
  buffer_length_start : ℚ
  buffer_length_end : ℚ
  flux_buffer_length : ℚ
  flux_buffer_length2 : ℚ
  channel_relative_delay : ℚ
  gaussian_filter_sigma : ℚ
  t0 : ℚ

namespace BufferedNZFLIPPulse

/-- The `channels` list `[channel, channel2]`. -/
def channels (p : BufferedNZFLIPPulse) : List String := [p.channel, p.channel2]

/-- The dict `self.flux_buffer = {channel: flux_buffer_length2,
channel2: flux_buffer_length}`. -/
def flux_buffer (p : BufferedNZFLIPPulse) (c : String) : ℚ :=
  if c = p.channel then p.flux_buffer_length2 else p.flux_buffer_length

/-- The dict `self.amps = {channel: amplitude, channel2: amplitude2}`. -/
def amps (p : BufferedNZFLIPPulse) (c : String) : ℚ :=
  if c = p.channel then p.amplitude else p.amplitude2

/-- The dict `self.alphas = {channel: alpha1, channel2: alpha2}` (the source
sets `alpha1 = alpha2 = self.alpha`). -/
def alphas (p : BufferedNZFLIPPulse) (c : String) : ℚ :=
  if c = p.channel then p.alpha else p.alpha

/-- The dict `self.length1` computed by `BufferedNZFLIPPulse.__init__`. -/
def length1 (p : BufferedNZFLIPPulse) (c : String) : ℚ :=
  if c = p.channel then
    p.alpha * p.pulse_length / (p.alpha + 1) + 2 * p.flux_buffer p.channel2
  else
    p.alpha * p.pulse_length / (p.alpha + 1) + 2 * p.flux_buffer p.channel

/-- The dict `self.length2` computed by `BufferedNZFLIPPulse.__init__`. -/
def length2 (p : BufferedNZFLIPPulse) (c : String) : ℚ :=
  if c = p.channel then
    p.pulse_length / (p.alpha + 1) + 2 * p.flux_buffer p.channel2
  else
    p.pulse_length / (p.alpha + 1) + 2 * p.flux_buffer p.channel

/-- The dict `self.buffer_length_start` computed by
`BufferedNZFLIPPulse.__init__` from the channel-relative delay. -/
def buffer_length_start_d (p : BufferedNZFLIPPulse) (c : String) : ℚ :=
  if p.channel_relative_delay < 0 then
    if c = p.channel then
      p.buffer_length_start - p.channel_relative_delay + p.flux_buffer p.channel
    else p.buffer_length_start + p.flux_buffer p.channel2
  else
    if c = p.channel then p.buffer_length_start + p.flux_buffer p.channel
    else
      p.buffer_length_start + p.channel_relative_delay
        + p.flux_buffer p.channel2

/-- The dict `self.buffer_length_end` computed by
`BufferedNZFLIPPulse.__init__` from the channel-relative delay. -/
def buffer_length_end_d (p : BufferedNZFLIPPulse) (c : String) : ℚ :=
  if p.channel_relative_delay < 0 then
    if c = p.channel then p.buffer_length_end + p.flux_buffer p.channel
    else
      p.buffer_length_end - p.channel_relative_delay + p.flux_buffer p.channel2
  else
    if c = p.channel then
      p.buffer_length_end + p.channel_relative_delay + p.flux_buffer p.channel
    else p.buffer_length_end + p.flux_buffer p.channel2

/-- `BufferedNZFLIPPulse.chan_wf`. -/
def chan_wf (erf : ℝ → ℝ) (p : BufferedNZFLIPPulse) (chan : String)
    (tvals : List ℝ) : List ℝ :=
  let amp1 : ℝ := (p.amps chan : ℝ)
  let amp2 : ℝ := -amp1 * (p.alphas chan : ℝ)
  let buffer_start : ℝ := (p.buffer_length_start_d chan : ℝ)
  let fb : ℝ := (p.flux_buffer chan : ℝ)
  let l1 : ℝ := (p.length1 chan : ℝ)
  let l2 : ℝ := (p.length2 chan : ℝ)
  if p.gaussian_filter_sigma = 0 then
    tvals.map fun t =>
      1 * amp1 * boolInd (tvals.headD 0 + buffer_start ≤ t)
          * boolInd (t < tvals.headD 0 + buffer_start + l1)
        + 1 * amp2 * boolInd (tvals.headD 0 + buffer_start + l1 + 2 * fb ≤ t)
          * boolInd (t < tvals.headD 0 + buffer_start + l1 + l2 + 2 * fb)
  else
    let tstart := tvals.headD 0 + buffer_start
    let tend := tvals.headD 0 + buffer_start + l1
    let tstart2 := tvals.headD 0 + buffer_start + l1 + 2 * fb
    let tend2 := tvals.headD 0 + buffer_start + l1 + l2 + 2 * fb
    let scaling := 1 / Real.sqrt 2 / (p.gaussian_filter_sigma : ℝ)
    tvals.map fun t =>
      0.5 * (amp1 * erf ((t - tstart) * scaling)
        - amp1 * erf ((t - tend) * scaling)
        + amp2 * erf ((t - tstart2) * scaling)
        - amp2 * erf ((t - tend2) * scaling))

/-- `BufferedNZFLIPPulse.hashables`. Note that the entries are the per
channel amplitude, `pulse_length`, buffer lengths, filter sigma and alpha;
the flux-buffer lengths enter only through the buffer lengths. -/
def hashables (p : BufferedNZFLIPPulse) (tstart : ℚ) (channel : String) :
    List HashElem :=
  if channel ∉ p.channels then []
  else
    [.tag ("BufferedNZFLIPPulse"), .num (p.t0 - tstart),
     .num (p.amps channel), .num p.pulse_length,
     .num (p.buffer_length_start_d channel),
     .num (p.buffer_length_end_d channel), .num p.gaussian_filter_sigma,
     .num (p.alphas channel)]

end BufferedNZFLIPPulse

/-- Concrete `BufferedNZFLIPPulse` used to exhibit the hash/waveform
mismatch: `flux_buffer_length = 0`. -/
def flipPulseA : BufferedNZFLIPPulse :=
  { channel := "ch1", channel2 := "ch2", amplitude := 1, amplitude2 := 1,
    alpha := 1, pulse_length := 2, buffer_length_start := 0,
    buffer_length_end := 0, flux_buffer_length := 0, flux_buffer_length2 := 0,
    channel_relative_delay := 0, gaussian_filter_sigma := 0, t0 := 0 }

/-- The same pulse as `flipPulseA` except `flux_buffer_length = 1`. -/
def flipPulseB : BufferedNZFLIPPulse :=
  { flipPulseA with flux_buffer_length := 1 }

/-! ### FIR filtering (`fluxpulse_predistortion.filter_fir`) -/

/-- Entry `j` of `np.convolve(x, kernel, mode='full')`:
`sum_i x[i] * kernel[j - i]` (out-of-range factors are zero; the summation
range `i ≤ j` covers all nonzero terms). -/
def convFullEntry (x kernel : List ℚ) (j : ℕ) : ℚ :=
  ∑ i ∈ Finset.range (j + 1), x.getD i 0 * kernel.getD (j - i) 0

/-- `np.convolve(x, kernel, mode='full')`: length `len(x) + len(kernel) - 1`. -/
def convFull (x kernel : List ℚ) : List ℚ :=
  (List.range (x.length + kernel.length - 1)).map (convFullEntry x kernel)

/-- Scanning loop behind `np.argmax`: tracks the best value `bv` and its
(first) index `bi`, with `i` the index of the head of the remaining list. -/
def argmaxAux : List ℚ → ℚ → ℕ → ℕ → ℕ
  | [], _, bi, _ => bi
  | a :: t, bv, bi, i =>
    if bv < a then argmaxAux t a i (i + 1) else argmaxAux t bv bi (i + 1)

/-- `np.argmax`: index of the first occurrence of the maximum value (0 on an
empty array, on which the source would raise). -/
def argmax : List ℚ → ℕ
  | [] => 0
  | a :: t => argmaxAux t a 0 1

/-- `fluxpulse_predistortion.filter_fir`:
`np.convolve(x, kernel, mode='full')[iMax : len(x) + iMax]` with
`iMax = kernel.argmax()`. -/
def filter_fir (kernel x : List ℚ) : List ℚ :=
  ((convFull x kernel).drop (argmax kernel)).take x.length

/-! ### Martinis-Geller flux pulse, v2
(`waveforms_flux.martinis_flux_pulse_v2`) -/

/-- NumPy's `np.round` on a scalar: round half to even. -/
def npRoundHalfEven (x : ℝ) : ℤ :=
  if x - ⌊x⌋ < 1 / 2 then ⌊x⌋
  else if 1 / 2 < x - ⌊x⌋ then ⌊x⌋ + 1
  else if Even ⌊x⌋ then ⌊x⌋ else ⌊x⌋ + 1

/-- `np.arange(start, stop, step)` for positive `step`:
`ceil((stop - start) / step)` points `start + i * step`. -/
def npArange (start stop step : ℝ) : List ℝ :=
  (List.range (Int.toNat ⌈(stop - start) / step⌉)).map
    fun i : ℕ => start + (i : ℝ) * step

/-- `np.clip(x, lo, hi)` on a scalar (the lower bound is applied first, so
for `lo > hi` the result is `hi`). -/
def npClip (lo hi x : ℝ) : ℝ := min hi (max lo x)

/-- Piecewise-linear interpolant with boundary extrapolation, as produced by
`scipy.interpolate.interp1d(xs, ys, fill_value='extrapolate')` on a strictly
increasing node list: queries left of the second node (including
extrapolation below the first) use the first segment, queries right of the
second-to-last node (including extrapolation above the last) use the last
segment. A singleton or empty node list is degenerate in scipy (it raises);
here it returns the sole value resp. 0. -/
def interpLin : List (ℝ × ℝ) → ℝ → ℝ
  | [], _ => 0
  | [(_, y0)], _ => y0
  | (x0, y0) :: (x1, y1) :: rest, t =>
    if t < x1 ∨ rest = [] then y0 + (y1 - y0) * (t - x0) / (x1 - x0)
    else interpLin ((x1, y1) :: rest) t

/-- `np.trapz(ys[: i + 1], dx)`: trapezoidal integral of the first `i + 1`
samples. -/
def trapzPrefix (ys : List ℝ) (dx : ℝ) (i : ℕ) : ℝ :=
  ∑ j ∈ Finset.range i, (ys.getD j 0 + ys.getD (j + 1) 0) / 2 * dx

/-- The cumulative physical-time axis
`t = [np.trapz(sin(theta)[: i + 1], dx) for i in range(len(theta))]`. -/
def tWarp (ys : List ℝ) (dx : ℝ) : List ℝ :=
  (List.range ys.length).map (trapzPrefix ys dx)

/-- Arguments of `martinis_flux_pulse_v2`, in source order, named as in the
source signature. -/
structure MartinisArgs where
  length : ℝ
  theta_i : ℝ
  theta_f : ℝ
  lambda_1 : ℝ
  lambda_2 : ℝ
  lambda_3 : ℝ
  lambda_4 : ℝ
  step_length : ℝ
  step_height : ℝ
  step_max : ℝ
  step_first : Bool
  apply_wait_time : Bool
  theta_f_must_be_above : Bool
  sampling_rate : ℝ
  interpolate : Bool

namespace MartinisV2

/-- `fine_sampling_factor = 1` in the v2 source. -/
def fine_sampling_factor : ℝ := 1

/-- The `theta_f` actually used: clipped into `[theta_i, pi - 0.01]` when
`theta_f < theta_i` and `theta_f_must_be_above`. -/
def thetaF (a : MartinisArgs) : ℝ :=
  if a.theta_f < a.theta_i ∧ a.theta_f_must_be_above then
    npClip a.theta_i (Real.pi - 1 / 100) a.theta_f
  else a.theta_f

/-- `nr_samples = int(np.round(length * sampling_rate * fine_sampling_factor))`
(the source writes `length * sampling_rate` with the factor folded in;
`int()` truncation on the nonnegative values of interest is `Int.toNat`). -/
def nrSamples (a : MartinisArgs) : ℕ :=
  Int.toNat (npRoundHalfEven (a.length * a.sampling_rate *
    fine_sampling_factor))

/-- `rounded_length = nr_samples / (fine_sampling_factor * sampling_rate)`. -/
def roundedLength (a : MartinisArgs) : ℝ :=
  nrSamples a / (fine_sampling_factor * a.sampling_rate)

/-- `tau_step = 1 / (fine_sampling_factor * sampling_rate)`. -/
def tauStep (a : MartinisArgs) : ℝ := 1 / (fine_sampling_factor * a.sampling_rate)

/-- `taus = np.arange(0, rounded_length - tau_step / 2, tau_step)`. -/
def taus (a : MartinisArgs) : List ℝ :=
  npArange 0 (roundedLength a - tauStep a / 2) (tauStep a)

/-- `lambda_0 = 1 - lambda_1` (from the unnormalized `lambda_1`). -/
def lambda0 (a : MartinisArgs) : ℝ := 1 - a.lambda_1

/-- `norm_odd_lambdas = lambda_1 + lambda_3 + lambda_0`. -/
def normOddLambdas (a : MartinisArgs) : ℝ := a.lambda_1 + a.lambda_3 + lambda0 a

/-- `factor_norm`: `desired_norm / norm_odd_lambdas` when the latter is
nonzero in absolute value, else 1 (`desired_norm = 1/2`). -/
def factorNorm (a : MartinisArgs) : ℝ :=
  if 0 < |normOddLambdas a| then (1 / 2) / normOddLambdas a else 1

/-- `dtheta` at one proper-time point, using the renormalized `lambda_1` and
`lambda_3` (`lambda_0` itself is not renormalized by the source). -/
def dtheta (a : MartinisArgs) (tau : ℝ) : ℝ :=
  lambda0 a
    + a.lambda_1 * factorNorm a
      * (1 - Real.cos (2 * Real.pi * tau / roundedLength a))
    + a.lambda_2 * (1 - Real.cos (4 * Real.pi * tau / roundedLength a))
    + a.lambda_3 * factorNorm a
      * (1 - Real.cos (6 * Real.pi * tau / roundedLength a))
    + a.lambda_4 * (1 - Real.cos (8 * Real.pi * tau / roundedLength a))

/-- `theta_wave = theta_i + dtheta_vec * (theta_f - theta_i)` on the `taus`
grid (elementwise; `np.ones(nr_samples)` and `taus` have the same length). -/
def thetaWave (a : MartinisArgs) : List ℝ :=
  (taus a).map fun tau => a.theta_i + dtheta a tau * (thetaF a - a.theta_i)

/-- The plateau value `step_max * step_height + theta_i` of `step_vec`. -/
def stepVal (a : MartinisArgs) : ℝ := a.step_max * a.step_height + a.theta_i

/-- The wait-time step: elementwise maximum of the first (`step_first`) or
last half of `theta_wave` with `step_vec` (`l_half = len(theta_wave) // 2`).
The source computes `nr_samples_step` from `step_length` but never uses it.
Python's `theta_wave[-l_half:]` is modelled as the last `l_half` entries;
for `l_half = 0` (fewer than 2 samples) Python would instead select the
whole array, a degenerate case excluded by the theorems below. -/
def thetaStepped (a : MartinisArgs) : List ℝ :=
  let tw := thetaWave a
  let lHalf := tw.length / 2
  if a.apply_wait_time then
    if a.step_first then
      (tw.take lHalf).map (fun v => max v (stepVal a)) ++ tw.drop lHalf
    else
      tw.take (tw.length - lHalf)
        ++ (tw.drop (tw.length - lHalf)).map (fun v => max v (stepVal a))
  else tw

/-- `clip_min`: `theta_i` if `theta_f_must_be_above` else 0. -/
def clipMin (a : MartinisArgs) : ℝ :=
  if a.theta_f_must_be_above then a.theta_i else 0

/-- `theta_wave_clipped = np.clip(theta_wave, clip_min, np.pi - 0.01)`. -/
def thetaClipped (a : MartinisArgs) : List ℝ :=
  (thetaStepped a).map (npClip (clipMin a) (Real.pi - 1 / 100))

/-- `t_samples = np.arange(0, length, 1 / sampling_rate)`. -/
def tSamples (a : MartinisArgs) : List ℝ :=
  npArange 0 a.length (1 / a.sampling_rate)

/-- The interpolation abscissae: the time-warped axis `t / scale` when
`interpolate` is set, else `taus`. (`np.nan_to_num` of the source has no
counterpart: division by zero is already 0 for real numbers here, and the
theorems below only use the `interpolate=False` branch.) -/
def tInterp (a : MartinisArgs) : List ℝ :=
  if a.interpolate then
    let t := tWarp ((thetaClipped a).map Real.sin)
      (1 / (fine_sampling_factor * a.sampling_rate))
    let scale := t.getLastD 0 / (tSamples a).getLastD 0
    t.map (· / scale)
  else taus a

end MartinisV2

/-- `waveforms_flux.martinis_flux_pulse_v2`: the returned sample array,
`interp1d(t_interp, theta_wave_clipped, fill_value='extrapolate')(t_samples)`. -/
def martinis_flux_pulse_v2 (a : MartinisArgs) : List ℝ :=
  (MartinisV2.tSamples a).map
    (interpLin ((MartinisV2.tInterp a).zip (MartinisV2.thetaClipped a)))

/-- Concrete arguments on which boundary extrapolation escapes the clip
range: `length * sampling_rate = 4.4` is not an integer, so the last sample
time `4` exceeds the last proper-time grid point `3`. -/
def martinisCeArgs : MartinisArgs :=
  { length := 22 / 5, theta_i := 1, theta_f := 2, lambda_1 := 1,
    lambda_2 := -1, lambda_3 := 0, lambda_4 := 0, step_length := 10 / 10 ^ 9,
    step_height := 0, step_max := Real.pi / 200, step_first := false,
    apply_wait_time := true, theta_f_must_be_above := true,
    sampling_rate := 1, interpolate := false }

/-- Concrete `SSB_DRAG_pulse` with stored phase 400 degrees (and
`phaselock` off, so the phase-reference folding term vanishes). -/
def ssbPhaseCe : SSB_DRAG_pulse :=
  { I_channel := "I", Q_channel := "Q", amplitude := 1, sigma := 1,
    nr_sigma := 5, motzoi := 0, mod_frequency := 0, phase := 400,
    alpha := 1, phi_skew := 0, phaselock := false, t0 := 0 }

/-- Concrete `GaussFilteredCosIQPulse` with stored phase 400 degrees (and
`phase_lock` on, so the phase-reference folding term vanishes). -/
def gfciqPhaseCe : GaussFilteredCosIQPulse :=
  { I_channel := "I", Q_channel := "Q", amplitude := 1, pulse_length := 1,
    mod_frequency := 0, phase := 400, nr_sigma := 5, alpha := 1,
    phi_skew := 0, gaussian_filter_sigma := 0, phase_lock := true, t0 := 0 }

/-- Concrete `BufferedCZPulse` with stored phase 725 degrees. -/
def czPhaseW : BufferedCZPulse :=
  { channel := "c", aux_channels_dict := [], amplitude := 1, frequency := 2,
    phase := 725, pulse_length := 1, buffer_length_start := 0,
    buffer_length_end := 0, extra_buffer_aux_pulse := 0,
    gaussian_filter_sigma := 0, t0 := 0 }

/-- Concrete `CosPulse` with stored phase -30 degrees. -/
def cosPhaseW : CosPulse :=
  { channel := "c", amplitude := 1, length := 1, frequency := 2,
    phase := -30, t0 := 0 }

/-- Concrete arguments with an integer `length * sampling_rate`, used to
instantiate the in-range theorem. -/
def martinisWArgs : MartinisArgs :=
  { length := 2, theta_i := 1, theta_f := 2, lambda_1 := 0, lambda_2 := 0,
    lambda_3 := 0, lambda_4 := 0, step_length := 10 / 10 ^ 9,
    step_height := 0, step_max := Real.pi / 200, step_first := false,
    apply_wait_time := true, theta_f_must_be_above := true,
    sampling_rate := 1, interpolate := false }

end

/-! ## Helper lemmas -/

theorem pythonMod_nonneg (a b : ℚ) (hb : 0 < b) : 0 ≤ pythonMod a b := by
  have h1 : ((⌊a / b⌋ : ℚ)) ≤ a / b := Int.floor_le _
  rw [pythonMod, sub_nonneg]
  calc b * (⌊a / b⌋ : ℚ) ≤ b * (a / b) := by
        exact mul_le_mul_of_nonneg_left h1 hb.le
    _ = a := by field_simp

theorem pythonMod_lt (a b : ℚ) (hb : 0 < b) : pythonMod a b < b := by
  have h2 : a / b < (⌊a / b⌋ : ℚ) + 1 := Int.lt_floor_add_one _
  rw [pythonMod, sub_lt_iff_lt_add]
  calc a = b * (a / b) := by field_simp
    _ < b * ((⌊a / b⌋ : ℚ) + 1) := by
        exact mul_lt_mul_of_pos_left h2 hb
    _ = b + b * (⌊a / b⌋ : ℚ) := by ring

/-! ## C10: SquarePulse waveform -/

/-- C10: for every SquarePulse instance, every channel argument (also
channels outside the pulse's channel set) and every sample-time array,
`chan_wf` returns `len(tvals)` copies of the amplitude; the output is
independent of the `length` parameter, of `algorithm_time` and of the values
in `tvals` (only their number matters). -/
theorem square_pulse_chan_wf (p : SquarePulse) (chan : String)
    (tvals : List ℝ) :
    p.chan_wf chan tvals = List.replicate tvals.length (p.amplitude : ℝ) ∧
    ∀ (p' : SquarePulse) (chan' : String) (tvals' : List ℝ),
      p'.amplitude = p.amplitude → tvals'.length = tvals.length →
      p'.chan_wf chan' tvals' = p.chan_wf chan tvals := by
  have key : ∀ (r : SquarePulse) (c : String) (tv : List ℝ),
      r.chan_wf c tv = List.replicate tv.length (r.amplitude : ℝ) := by
    intro r c tv
    simp [SquarePulse.chan_wf, List.map_replicate]
  exact ⟨key p chan tvals, fun p' chan' tvals' hamp hlen => by
    rw [key, key, hamp, hlen]⟩

/-- Witness for C10 at concrete pulses: the two pulses differ in channel
set, `length` and `t0`, and the sample arrays differ in values. -/
theorem square_pulse_chan_wf_witness :
    SquarePulse.chan_wf ⟨["ch1"], 5, 2, 0⟩ "ch1" [0, 1] =
        List.replicate ([(0 : ℝ), 1]).length ((5 : ℚ) : ℝ) ∧
      SquarePulse.chan_wf ⟨["ch2"], 5, 7, 3⟩ "chX" [4, 9] =
        SquarePulse.chan_wf ⟨["ch1"], 5, 2, 0⟩ "ch1" [0, 1] :=
  ⟨(square_pulse_chan_wf ⟨["ch1"], 5, 2, 0⟩ "ch1" [0, 1]).1,
   (square_pulse_chan_wf ⟨["ch1"], 5, 2, 0⟩ "ch1" [0, 1]).2
     ⟨["ch2"], 5, 7, 3⟩ "chX" [4, 9] rfl rfl⟩

/-! ## C9: chan_wf on a channel outside the pulse's channel set -/

/-- C9 counterexample: `BufferedSquarePulse.chan_wf` on a channel that is
not one of the pulse's channels neither returns zeros nor fails: the source
never inspects the channel argument, so the full waveform (here the nonzero
sample `1`) is returned for the foreign channel `"chX"`. -/
theorem chan_wf_unknown_channel_counterexample :
    BufferedSquarePulse.chan_wf id
        { channels := ["ch1"], amplitude := 1, pulse_length := 1,
          buffer_length_start := 0, buffer_length_end := 0,
          gaussian_filter_sigma := 0, t0 := 0 } "chX" [0] = [1] ∧
      "chX" ∉ (["ch1"] : List String) ∧ (1 : ℝ) ≠ 0 := by
  refine ⟨?_, by decide, one_ne_zero⟩
  norm_num [BufferedSquarePulse.chan_wf, boolInd]

/-- C9 (amended): the behavior of `chan_wf` on a channel outside the
pulse's channel set is shape-dependent rather than consistent:
`SSB_DRAG_pulse` returns an all-zero array, `GaussFilteredCosIQPulse`
returns no waveform at all (Python `None`), and `BufferedSquarePulse`
ignores the channel argument entirely, returning the same waveform as for
its own channels. -/
theorem chan_wf_unknown_channel (p : SSB_DRAG_pulse) (channel : String)
    (tvals : List ℝ) :
    (channel ∉ p.channels → p.chan_wf channel tvals = tvals.map fun _ => 0) ∧
    (∀ (erf : ℝ → ℝ) (q : GaussFilteredCosIQPulse) (chan : String)
        (tvals' : List ℝ), chan ∉ q.channels →
        q.chan_wf erf chan tvals' = none) ∧
    (∀ (erf : ℝ → ℝ) (r : BufferedSquarePulse) (c c' : String)
        (tvals' : List ℝ), r.chan_wf erf c tvals' = r.chan_wf erf c' tvals') := by
  refine ⟨fun h => ?_, fun erf q chan tvals' h => ?_, fun erf r c c' tvals' => rfl⟩
  · simp only [SSB_DRAG_pulse.channels, List.mem_cons, not_or] at h
    rw [SSB_DRAG_pulse.chan_wf, if_neg h.1, if_neg h.2.1]
  · simp only [GaussFilteredCosIQPulse.channels, List.mem_cons, not_or] at h
    rw [GaussFilteredCosIQPulse.chan_wf]
    simp only [if_neg h.1, if_neg h.2.1]

/-- Witness for C9 at a concrete foreign channel. -/
theorem chan_wf_unknown_channel_witness :
    SSB_DRAG_pulse.chan_wf
        { I_channel := "I", Q_channel := "Q", amplitude := 1, sigma := 1,
          nr_sigma := 5, motzoi := 0, mod_frequency := 0, phase := 0,
          alpha := 1, phi_skew := 0, phaselock := true, t0 := 0 }
        "X" [0, 1] = ([(0 : ℝ), 1].map fun _ => 0) ∧
      GaussFilteredCosIQPulse.chan_wf id
        { I_channel := "I", Q_channel := "Q", amplitude := 1,
          pulse_length := 1, mod_frequency := 0, phase := 0, nr_sigma := 5,
          alpha := 1, phi_skew := 0, gaussian_filter_sigma := 0,
          phase_lock := false, t0 := 0 } "X" [0] = none :=
  ⟨(chan_wf_unknown_channel _ ("X") [0, 1]).1 (by decide),
   (chan_wf_unknown_channel
      { I_channel := "I", Q_channel := "Q", amplitude := 1, sigma := 1,
        nr_sigma := 5, motzoi := 0, mod_frequency := 0, phase := 0,
        alpha := 1, phi_skew := 0, phaselock := true, t0 := 0 }
      "X" [0, 1]).2.1 id _ ("X") [0] (by decide)⟩

/-! ## C3: NZTransitionControlledPulse construction -/

/-- C3: constructing an `NZTransitionControlledPulse` hits the assertion
exactly when some channel's parameters violate
`|main_len * amp_offset| < |trans_len * trans_amp|`; when construction
succeeds, for every channel the sum over the six segments of
`segment_length * segment_amplitude` is exactly 0. -/
theorem nzTransInit_spec (bs be : ℚ) (cs : List NZTransChanParams) :
    (nzTransInit bs be cs = none ↔
      ∃ c ∈ cs,
        ¬(|c.main_len * c.amp_offset| < |c.trans_len * c.trans_amp|)) ∧
    ∀ la, nzTransInit bs be cs = some la →
      ∀ pr ∈ la, (List.zipWith (· * ·) pr.1 pr.2).sum = 0 := by
  induction cs with
  | nil =>
    refine ⟨by simp [nzTransInit], fun la h pr hpr => ?_⟩
    simp only [nzTransInit, Option.some.injEq] at h
    subst h
    simp at hpr
  | cons c rest ih =>
    by_cases hc : |c.main_len * c.amp_offset| < |c.trans_len * c.trans_amp|
    · have heq : nzTransInit bs be (c :: rest) =
          (nzTransInit bs be rest).map fun tail =>
            (nzTransLengths bs be c.main_len c.trans_len c.trans_amp
                c.amp_offset,
              nzTransAmplitudes c.main_amp c.trans_amp c.amp_offset) ::
              tail := by
        simp only [nzTransInit, if_pos hc]
      constructor
      · rw [heq, Option.map_eq_none', ih.1]
        constructor
        · rintro ⟨d, hd, hviol⟩
          exact ⟨d, List.mem_cons_of_mem c hd, hviol⟩
        · rintro ⟨d, hd, hviol⟩
          rcases List.mem_cons.mp hd with rfl | hd
          · exact absurd hc hviol
          · exact ⟨d, hd, hviol⟩
      · intro la h pr hpr
        rw [heq, Option.map_eq_some'] at h
        obtain ⟨tail, htail, rfl⟩ := h
        rcases List.mem_cons.mp hpr with hpr | hpr
        · subst hpr
          have hta : c.trans_amp ≠ 0 := by
            intro h0
            rw [h0, mul_zero, abs_zero] at hc
            exact absurd hc (not_lt.mpr (abs_nonneg _))
          simp only [nzTransLengths, nzTransAmplitudes, List.zipWith,
            List.sum_cons, List.sum_nil]
          field_simp
          ring
        · exact ih.2 tail htail pr hpr
    · have heq : nzTransInit bs be (c :: rest) = none := by
        simp only [nzTransInit, if_neg hc]
      constructor
      · simp only [heq, true_iff]
        exact ⟨c, List.mem_cons_self c rest, hc⟩
      · intro la h
        rw [heq] at h
        exact absurd h (by simp)

/-- Witness for C3: a feasible single-channel parameterization
(`|2 * 1/4| = 1/2 < 1 = |1 * 1|`) constructs successfully with segment area
exactly 0. -/
theorem nzTransInit_spec_witness :
    (List.zipWith (· * ·) (nzTransLengths 0 0 2 1 1 (1 / 4))
      (nzTransAmplitudes 1 1 (1 / 4))).sum = 0 :=
  (nzTransInit_spec 0 0 [⟨2, 1, 1, 1, 1 / 4⟩]).2
    [(nzTransLengths 0 0 2 1 1 (1 / 4), nzTransAmplitudes 1 1 (1 / 4))]
    (by
      have hc : |(2 : ℚ) * (1 / 4)| < |(1 : ℚ) * 1| := by
        rw [abs_of_nonneg (by norm_num), abs_of_nonneg (by norm_num)]
        norm_num
      simp only [nzTransInit, if_pos hc, Option.map_some'])
    (nzTransLengths 0 0 2 1 1 (1 / 4), nzTransAmplitudes 1 1 (1 / 4))
    (List.mem_singleton_self _)

/-! ## C2: modulo-360 reduction of the hashables phase entry -/

/-- C2 counterexample: the phase entry of `SSB_DRAG_pulse.hashables` is not
reduced modulo 360: with stored phase 400 (and `phaselock` off, so no
phase-reference folding applies) the entry is 400, which is not its own
modulo-360 reduction. -/
theorem ssb_drag_phase_hash_not_reduced :
    (SSB_DRAG_pulse.hashables ssbPhaseCe 0 "I").getD 10 (.num 0) =
        .num 400 ∧
      pythonMod 400 360 ≠ 400 := by
  constructor
  · norm_num [SSB_DRAG_pulse.hashables, SSB_DRAG_pulse.channels, boolIndQ,
      ssbPhaseCe]
  · have h := pythonMod_lt 400 360 (by norm_num)
    intro h'
    rw [h'] at h
    norm_num at h

/-- C2 (amended): only `BufferedCZPulse` and `CosPulse` reduce the phase
entry of `hashables` modulo 360 (the entry always lies in `[0, 360)`);
`SSB_DRAG_pulse` and `GaussFilteredCosIQPulse` fold the phase-reference time
dependence into the phase entry but do not reduce it modulo 360 (there are
parameter values whose phase entry lies outside `[0, 360)`). -/
theorem phase_hash_mod360 :
    (∀ (p : BufferedCZPulse) (tstart : ℚ) (channel : String),
      channel ∈ p.channels →
      ∃ e : ℚ, (p.hashables tstart channel).getD 8 (.num 0) = .num e ∧
        0 ≤ e ∧ e < 360) ∧
    (∀ (p : CosPulse) (tstart : ℚ),
      ∃ e : ℚ, (p.hashables tstart p.channel).getD 5 (.num 0) = .num e ∧
        0 ≤ e ∧ e < 360) ∧
    (∃ (p : SSB_DRAG_pulse) (e : ℚ),
      (p.hashables 0 p.I_channel).getD 10 (.num 0) = .num e ∧
        ¬(0 ≤ e ∧ e < 360)) ∧
    (∃ (p : GaussFilteredCosIQPulse) (e : ℚ),
      (p.hashables 0 p.I_channel).getD 10 (.num 0) = .num e ∧
        ¬(0 ≤ e ∧ e < 360)) := by
  refine ⟨fun p tstart channel hmem => ?_, fun p tstart => ?_, ?_, ?_⟩
  · refine ⟨pythonMod p.phase 360, ?_,
      pythonMod_nonneg _ _ (by norm_num), pythonMod_lt _ _ (by norm_num)⟩
    rw [BufferedCZPulse.hashables, if_neg (by simpa using hmem)]
    rfl
  · refine ⟨pythonMod (p.phase + p.frequency * tstart * 360) 360, ?_,
      pythonMod_nonneg _ _ (by norm_num), pythonMod_lt _ _ (by norm_num)⟩
    rw [CosPulse.hashables,
      if_neg (by simp : ¬(p.channel ∉ [p.channel]))]
    rfl
  · refine ⟨ssbPhaseCe, 400, ?_, by norm_num⟩
    norm_num [SSB_DRAG_pulse.hashables, SSB_DRAG_pulse.channels, boolIndQ,
      ssbPhaseCe]
  · refine ⟨gfciqPhaseCe, 400, ?_, by norm_num⟩
    norm_num [GaussFilteredCosIQPulse.hashables,
      GaussFilteredCosIQPulse.channels, boolIndQ, gfciqPhaseCe]

/-- Witness for C2 at a concrete `BufferedCZPulse` and `CosPulse`. -/
theorem phase_hash_mod360_witness :
    (∃ e : ℚ,
      (BufferedCZPulse.hashables czPhaseW 0 "c").getD 8 (.num 0) = .num e ∧
        0 ≤ e ∧ e < 360) ∧
    ∃ e : ℚ,
      (CosPulse.hashables cosPhaseW 7 "c").getD 5 (.num 0) = .num e ∧
        0 ≤ e ∧ e < 360 :=
  ⟨phase_hash_mod360.1 czPhaseW 0 "c" (by decide),
   phase_hash_mod360.2.1 cosPhaseW 7⟩

/-! ## C5: FIR filtering -/

theorem argmaxAux_lt (t : List ℚ) : ∀ (bv : ℚ) (bi i : ℕ), bi < i →
    argmaxAux t bv bi i < i + t.length := by
  induction t with
  | nil =>
    intro bv bi i h
    simpa [argmaxAux] using h
  | cons a tl ih =>
    intro bv bi i h
    simp only [argmaxAux, List.length_cons]
    split
    · have h2 := ih a i (i + 1) (Nat.lt_succ_self i)
      omega
    · have h2 := ih bv bi (i + 1) (by omega)
      omega

theorem argmax_lt (l : List ℚ) (h : l ≠ []) : argmax l < l.length := by
  cases l with
  | nil => exact absurd rfl h
  | cons a t =>
    have h2 := argmaxAux_lt t a 0 1 Nat.zero_lt_one
    simp only [argmax, List.length_cons]
    omega

theorem argmaxAux_replicate_append (l : List ℚ) (n : ℕ) :
    ∀ (bi i : ℕ), argmaxAux (List.replicate n 0 ++ l) 0 bi i =
      argmaxAux l 0 bi (i + n) := by
  induction n with
  | zero => intro bi i; simp
  | succ n ih =>
    intro bi i
    rw [List.replicate_succ, List.cons_append]
    simp only [argmaxAux]
    rw [if_neg (lt_irrefl (0 : ℚ)), ih]
    congr 1
    omega

theorem argmaxAux_replicate_one (n : ℕ) : ∀ (bi i : ℕ),
    argmaxAux (List.replicate n (0 : ℚ)) 1 bi i = bi := by
  induction n with
  | zero => intro bi i; simp [argmaxAux]
  | succ n ih =>
    intro bi i
    rw [List.replicate_succ]
    simp only [argmaxAux, if_neg (by norm_num : ¬(1 : ℚ) < 0)]
    exact ih bi (i + 1)

theorem argmax_impulse (p q : ℕ) :
    argmax (List.replicate p (0 : ℚ) ++ 1 :: List.replicate q 0) = p := by
  cases p with
  | zero =>
    simp only [List.replicate, List.nil_append, argmax]
    exact argmaxAux_replicate_one q 0 1
  | succ p' =>
    rw [List.replicate_succ, List.cons_append]
    simp only [argmax]
    rw [argmaxAux_replicate_append]
    simp only [argmaxAux, if_pos (by norm_num : (0 : ℚ) < 1)]
    rw [argmaxAux_replicate_one]
    omega

theorem getD_replicate_zero (q : ℕ) : ∀ j : ℕ,
    (List.replicate q (0 : ℚ)).getD j 0 = 0 := by
  induction q with
  | zero => intro j; simp
  | succ q ih =>
    intro j
    cases j with
    | zero => simp [List.replicate_succ]
    | succ j' => simpa [List.replicate_succ] using ih j'

theorem impulse_getD (p q : ℕ) : ∀ j : ℕ,
    (List.replicate p (0 : ℚ) ++ 1 :: List.replicate q 0).getD j 0 =
      if j = p then 1 else 0 := by
  induction p with
  | zero =>
    intro j
    cases j with
    | zero => simp
    | succ j' => simp [getD_replicate_zero]
  | succ p' ih =>
    intro j
    cases j with
    | zero => simp [List.replicate_succ]
    | succ j' =>
      rw [List.replicate_succ, List.cons_append, List.getD_cons_succ, ih j']
      simp

/-- C5: for every non-empty kernel and non-empty input, `filter_fir` returns
an array of the input's length; and for every unit-impulse kernel (a single
1 at position `p`, zeros elsewhere — e.g. `[1]` or `[0, 1, 0]`) the output
equals the input. -/
theorem filter_fir_spec (kernel x : List ℚ) (p q : ℕ)
    (hk : kernel ≠ []) (hx : x ≠ []) :
    (filter_fir kernel x).length = x.length ∧
    (kernel = List.replicate p 0 ++ 1 :: List.replicate q 0 →
      filter_fir kernel x = x) := by
  have hkl : 0 < kernel.length := List.length_pos.mpr hk
  have ham := argmax_lt kernel hk
  have hclen : (convFull x kernel).length = x.length + kernel.length - 1 := by
    simp [convFull]
  have hlen : (filter_fir kernel x).length = x.length := by
    simp only [filter_fir, List.length_take, List.length_drop, hclen]
    omega
  refine ⟨hlen, fun himp => ?_⟩
  apply List.ext_getElem hlen
  intro j h1 h2
  have hpm : argmax kernel = p := himp ▸ argmax_impulse p q
  have hklen : kernel.length = p + q + 1 := by
    simp [himp, List.length_replicate]
    omega
  have hconv : p + j < (convFull x kernel).length := by omega
  calc (filter_fir kernel x)[j]
      = (convFull x kernel).get ⟨p + j, hconv⟩ := by
        simp only [filter_fir, hpm, List.getElem_take, List.getElem_drop,
          List.get_eq_getElem]
    _ = convFullEntry x kernel (p + j) := by
        simp only [List.get_eq_getElem, convFull, List.getElem_map,
          List.getElem_range]
    _ = ∑ i ∈ Finset.range (p + j + 1),
          if i = j then x.getD i 0 else 0 := by
        rw [convFullEntry]
        refine Finset.sum_congr rfl fun i hi => ?_
        rw [Finset.mem_range] at hi
        rw [himp, impulse_getD p q (p + j - i)]
        by_cases hij : i = j
        · rw [if_pos (by omega), if_pos hij, mul_one]
        · rw [if_neg (by omega), if_neg hij, mul_zero]
    _ = x.getD j 0 := by
        rw [Finset.sum_ite_eq' (Finset.range (p + j + 1)) j
          (fun i => x.getD i 0)]
        rw [if_pos (Finset.mem_range.mpr (by omega))]
    _ = x[j] := List.getD_eq_getElem x 0 h2

/-- Witness for C5: the kernel `[0, 1, 0]` (a 1-sample identity centred at
index 1) leaves `[5, 7]` unchanged, with the output length equal to the
input length. -/
theorem filter_fir_spec_witness :
    (filter_fir [0, 1, 0] [5, 7]).length = ([5, 7] : List ℚ).length ∧
      filter_fir [0, 1, 0] [5, 7] = [5, 7] :=
  ⟨(filter_fir_spec [0, 1, 0] [5, 7] 1 1 (by decide) (by decide)).1,
   (filter_fir_spec [0, 1, 0] [5, 7] 1 1 (by decide) (by decide)).2
     (by norm_num [List.replicate])⟩

/-! ## C8: net-zero buffered CZ pulse -/

theorem sum_map_range (f : ℕ → ℝ) (n : ℕ) :
    ((List.range n).map f).sum = ∑ i ∈ Finset.range n, f i := by
  induction n with
  | zero => simp
  | succ n ih => rw [List.range_succ]; simp [ih, Finset.sum_range_succ]

theorem boolInd_mul_boolInd (P Q : Prop) [Decidable P] [Decidable Q] :
    boolInd P * boolInd Q = if P ∧ Q then (1 : ℝ) else 0 := by
  by_cases hP : P <;> by_cases hQ : Q <;> simp [boolInd, hP, hQ]

theorem sum_indicator_interval (K a b : ℕ) (hbK : b ≤ K) :
    ∑ i ∈ Finset.range K, (if a ≤ i ∧ i < b then (1 : ℝ) else 0) =
      ((b - a : ℕ) : ℝ) := by
  have hfilter : (Finset.range K).filter (fun i => a ≤ i ∧ i < b) =
      Finset.Ico a b := by
    ext i
    simp only [Finset.mem_filter, Finset.mem_range, Finset.mem_Ico]
    omega
  rw [← Finset.sum_filter, hfilter, Finset.sum_const, Nat.card_Ico]
  simp

theorem cast_mul_le_iff (a b : ℕ) (d : ℝ) (hd : 0 < d) :
    ((a : ℝ) * d ≤ (b : ℝ) * d) ↔ a ≤ b := by
  rw [mul_le_mul_right hd, Nat.cast_le]

theorem cast_mul_lt_iff (a b : ℕ) (d : ℝ) (hd : 0 < d) :
    ((a : ℝ) * d < (b : ℝ) * d) ↔ a < b := by
  rw [mul_lt_mul_right hd, Nat.cast_lt]

/-- C8: for an `NZBufferedCZPulse` with positive `alpha`, the discrete
integral (sample sum times sample spacing) of `chan_wf` on the primary
channel over a uniform grid covering the whole pulse is exactly 0 whenever
the sample spacing divides the lobe boundaries (`buffer_length_start = k*dt`,
`length1 = m*dt`, `pulse_length = n*dt`); and in exact arithmetic
`amp1 * length1 + amp2 * (pulse_length - length1) = 0` with
`amp1 = amplitude` and `amp2 = -amplitude * alpha`. -/
theorem nz_buffered_cz_zero_area (erf : ℝ → ℝ) (p : NZBufferedCZPulse)
    (t0 : ℝ) (dt : ℚ) (k m n K : ℕ)
    (hα : 0 < p.alpha) (hdt : 0 < dt) (hgfs : p.gaussian_filter_sigma = 0)
    (hbs : p.buffer_length_start = k * dt) (hl1 : p.length1 = m * dt)
    (hpl : p.pulse_length = n * dt) (hK : k + n ≤ K) (hK0 : 0 < K) :
    ((p.chan_wf erf p.channel
        ((List.range K).map fun i : ℕ => t0 + (i : ℝ) * (dt : ℝ))).sum
          * (dt : ℝ) = 0) ∧
      p.amplitude * p.length1 +
        (-p.amplitude * p.alpha) * (p.pulse_length - p.length1) = 0 := by
  have hα1 : p.alpha + 1 ≠ 0 := by positivity
  have halg : p.amplitude * p.length1 +
      (-p.amplitude * p.alpha) * (p.pulse_length - p.length1) = 0 := by
    rw [NZBufferedCZPulse.length1]
    field_simp
    ring
  refine ⟨?_, halg⟩
  have hdt' : (0 : ℝ) < (dt : ℝ) := by exact_mod_cast hdt
  have hmn : m ≤ n := by
    have hpl0 : 0 ≤ p.pulse_length := by
      rw [hpl]; positivity
    have h1 : (m : ℚ) * dt ≤ (n : ℚ) * dt := by
      rw [← hl1, ← hpl, NZBufferedCZPulse.length1,
        div_le_iff (by positivity : (0 : ℚ) < p.alpha + 1)]
      nlinarith
    exact_mod_cast le_of_mul_le_mul_right h1 hdt
  set tvals : List ℝ :=
    (List.range K).map fun i : ℕ => t0 + (i : ℝ) * (dt : ℝ) with htv
  have hhead : tvals.head? = some t0 := by
    obtain ⟨K', rfl⟩ : ∃ K', K = K' + 1 := ⟨K - 1, by omega⟩
    simp [htv, List.range_succ_eq_map]
  have e1 : (p.buffer_length_start : ℝ) = (k : ℝ) * (dt : ℝ) := by
    rw [hbs]; push_cast; ring
  have e2 : (p.length1 : ℝ) = (m : ℝ) * (dt : ℝ) := by
    rw [hl1]; push_cast; ring
  have e3 : (p.pulse_length : ℝ) = (n : ℝ) * (dt : ℝ) := by
    rw [hpl]; push_cast; ring
  have hwf : p.chan_wf erf p.channel tvals = tvals.map fun t =>
      (p.amplitude : ℝ)
          * boolInd (t0 + (p.buffer_length_start : ℝ) ≤ t)
          * boolInd (t < t0 + (p.buffer_length_start : ℝ) + (p.length1 : ℝ))
        + (-(p.amplitude : ℝ) * (p.alpha : ℝ))
          * boolInd (t0 + (p.buffer_length_start : ℝ)
              + (p.length1 : ℝ) ≤ t)
          * boolInd (t < t0 + (p.buffer_length_start : ℝ)
              + (p.pulse_length : ℝ)) := by
    simp [NZBufferedCZPulse.chan_wf, hgfs, hhead]
  rw [hwf, htv, List.map_map, sum_map_range]
  have hiff1 : ∀ i : ℕ,
      (t0 + (p.buffer_length_start : ℝ) ≤ t0 + (i : ℝ) * (dt : ℝ)) ↔
        (k ≤ i) := by
    intro i
    rw [e1, add_le_add_iff_left, cast_mul_le_iff _ _ _ hdt']
  have hiff2 : ∀ i : ℕ,
      (t0 + (i : ℝ) * (dt : ℝ) < t0 + (p.buffer_length_start : ℝ)
          + (p.length1 : ℝ)) ↔ (i < k + m) := by
    intro i
    rw [e1, e2, show t0 + (k : ℝ) * (dt : ℝ) + (m : ℝ) * (dt : ℝ)
        = t0 + ((k + m : ℕ) : ℝ) * (dt : ℝ) by push_cast; ring,
      add_lt_add_iff_left, cast_mul_lt_iff _ _ _ hdt']
  have hiff3 : ∀ i : ℕ,
      (t0 + (p.buffer_length_start : ℝ) + (p.length1 : ℝ)
          ≤ t0 + (i : ℝ) * (dt : ℝ)) ↔ (k + m ≤ i) := by
    intro i
    rw [e1, e2, show t0 + (k : ℝ) * (dt : ℝ) + (m : ℝ) * (dt : ℝ)
        = t0 + ((k + m : ℕ) : ℝ) * (dt : ℝ) by push_cast; ring,
      add_le_add_iff_left, cast_mul_le_iff _ _ _ hdt']
  have hiff4 : ∀ i : ℕ,
      (t0 + (i : ℝ) * (dt : ℝ) < t0 + (p.buffer_length_start : ℝ)
          + (p.pulse_length : ℝ)) ↔ (i < k + n) := by
    intro i
    rw [e1, e3, show t0 + (k : ℝ) * (dt : ℝ) + (n : ℝ) * (dt : ℝ)
        = t0 + ((k + n : ℕ) : ℝ) * (dt : ℝ) by push_cast; ring,
      add_lt_add_iff_left, cast_mul_lt_iff _ _ _ hdt']
  have hsum : ∑ i ∈ Finset.range K,
      (Function.comp (fun t =>
        (p.amplitude : ℝ)
            * boolInd (t0 + (p.buffer_length_start : ℝ) ≤ t)
            * boolInd (t < t0 + (p.buffer_length_start : ℝ)
                + (p.length1 : ℝ))
          + (-(p.amplitude : ℝ) * (p.alpha : ℝ))
            * boolInd (t0 + (p.buffer_length_start : ℝ)
                + (p.length1 : ℝ) ≤ t)
            * boolInd (t < t0 + (p.buffer_length_start : ℝ)
                + (p.pulse_length : ℝ)))
        (fun i : ℕ => t0 + (i : ℝ) * (dt : ℝ))) i
      = (p.amplitude : ℝ) * ((m : ℕ) : ℝ)
        + (-(p.amplitude : ℝ) * (p.alpha : ℝ)) * ((n - m : ℕ) : ℝ) := by
    have hstep : ∀ i ∈ Finset.range K,
        (Function.comp (fun t =>
          (p.amplitude : ℝ)
              * boolInd (t0 + (p.buffer_length_start : ℝ) ≤ t)
              * boolInd (t < t0 + (p.buffer_length_start : ℝ)
                  + (p.length1 : ℝ))
            + (-(p.amplitude : ℝ) * (p.alpha : ℝ))
              * boolInd (t0 + (p.buffer_length_start : ℝ)
                  + (p.length1 : ℝ) ≤ t)
              * boolInd (t < t0 + (p.buffer_length_start : ℝ)
                  + (p.pulse_length : ℝ)))
          (fun i : ℕ => t0 + (i : ℝ) * (dt : ℝ))) i
        = (p.amplitude : ℝ) * (if k ≤ i ∧ i < k + m then (1 : ℝ) else 0)
          + (-(p.amplitude : ℝ) * (p.alpha : ℝ))
            * (if k + m ≤ i ∧ i < k + n then (1 : ℝ) else 0) := by
      intro i _
      simp only [Function.comp]
      rw [mul_assoc ((p.amplitude : ℝ)), boolInd_mul_boolInd,
        mul_assoc (-(p.amplitude : ℝ) * (p.alpha : ℝ)), boolInd_mul_boolInd]
      simp only [hiff1 i, hiff2 i, hiff3 i, hiff4 i]
    rw [Finset.sum_congr rfl hstep, Finset.sum_add_distrib,
      ← Finset.mul_sum, ← Finset.mul_sum,
      sum_indicator_interval K k (k + m) (by omega),
      sum_indicator_interval K (k + m) (k + n) (by omega)]
    have h1 : (k + m) - k = m := by omega
    have h2 : (k + n) - (k + m) = n - m := by omega
    rw [h1, h2]
  rw [hsum]
  have hcast : ((n - m : ℕ) : ℝ) = (n : ℝ) - (m : ℝ) := Nat.cast_sub hmn
  rw [hcast]
  have : ((p.amplitude : ℝ) * (m : ℝ)
      + (-(p.amplitude : ℝ) * (p.alpha : ℝ)) * ((n : ℝ) - (m : ℝ)))
        * (dt : ℝ)
      = ((p.amplitude * p.length1 + (-p.amplitude * p.alpha)
          * (p.pulse_length - p.length1) : ℚ) : ℝ) := by
    push_cast [hl1, hpl]
    ring
  rw [this, halg]
  norm_num

/-- Witness for C8 at concrete parameters: `alpha = 1`, `pulse_length = 2`,
`buffer_length_start = 1`, sample spacing 1, over a 4-sample grid. -/
theorem nz_buffered_cz_zero_area_witness :
    ((NZBufferedCZPulse.chan_wf id
        { channel := "c", aux_channels_dict := [], amplitude := 5,
          alpha := 1, frequency := 0, phase := 0, pulse_length := 2,
          buffer_length_start := 1, buffer_length_end := 0,
          extra_buffer_aux_pulse := 0, gaussian_filter_sigma := 0, t0 := 0 }
        "c" ((List.range 4).map fun i : ℕ => 0 + (i : ℝ) * ((1 : ℚ) : ℝ))).sum
          * ((1 : ℚ) : ℝ) = 0) ∧
      (5 : ℚ) * NZBufferedCZPulse.length1
          { channel := "c", aux_channels_dict := [], amplitude := 5,
            alpha := 1, frequency := 0, phase := 0, pulse_length := 2,
            buffer_length_start := 1, buffer_length_end := 0,
            extra_buffer_aux_pulse := 0, gaussian_filter_sigma := 0,
            t0 := 0 } +
        (-5 * 1) * (2 - NZBufferedCZPulse.length1
          { channel := "c", aux_channels_dict := [], amplitude := 5,
            alpha := 1, frequency := 0, phase := 0, pulse_length := 2,
            buffer_length_start := 1, buffer_length_end := 0,
            extra_buffer_aux_pulse := 0, gaussian_filter_sigma := 0,
            t0 := 0 }) = 0 :=
  nz_buffered_cz_zero_area id
    { channel := "c", aux_channels_dict := [], amplitude := 5, alpha := 1,
      frequency := 0, phase := 0, pulse_length := 2,
      buffer_length_start := 1, buffer_length_end := 0,
      extra_buffer_aux_pulse := 0, gaussian_filter_sigma := 0, t0 := 0 }
    0 1 1 1 2 4 (by norm_num) (by norm_num) rfl (by norm_num)
    (by norm_num [NZBufferedCZPulse.length1]) (by norm_num)
    (by norm_num) (by norm_num)

/-! ## C4: unit-determinant of the modulation transform -/

/-- C4: for `alpha ≠ 0` and `cos(phi_skew) ≠ 0`, the 2x2 linear map taking
the envelope pair to the output pair of `apply_modulation` (read off by
applying the transform to the basis envelopes `(1,0)` and `(0,1)`) has
determinant of absolute value exactly 1, at every sample time, modulation
frequency, phase and phase-reference time. -/
theorem apply_modulation_det (t mod_frequency phase phi_skew alpha tref : ℝ)
    (ha : alpha ≠ 0) (hc : Real.cos (deg2rad phi_skew) ≠ 0) :
    |(apply_modulation 1 0 t mod_frequency phase phi_skew alpha tref).1 *
        (apply_modulation 0 1 t mod_frequency phase phi_skew alpha tref).2 -
      (apply_modulation 0 1 t mod_frequency phase phi_skew alpha tref).1 *
        (apply_modulation 1 0 t mod_frequency phase phi_skew alpha tref).2|
      = 1 := by
  simp only [apply_modulation]
  set di := deg2rad (360 * mod_frequency * (t - tref) + phase + phi_skew)
    with hdi
  set dq := deg2rad (360 * mod_frequency * (t - tref) + phase + 90) with hdq
  set k := Real.sqrt |alpha / Real.cos (deg2rad phi_skew)| with hk
  have hsub : dq - di = Real.pi / 2 - deg2rad phi_skew := by
    rw [hdi, hdq]
    simp only [deg2rad]
    ring
  have hdet : k * (1 * Real.cos di + 0 * Real.sin di) *
        (k * (0 * Real.cos dq + 1 * Real.sin dq) / alpha) -
      k * (0 * Real.cos di + 1 * Real.sin di) *
        (k * (1 * Real.cos dq + 0 * Real.sin dq) / alpha)
      = k ^ 2 * Real.sin (dq - di) / alpha := by
    rw [Real.sin_sub]
    ring
  rw [hdet, hk, Real.sq_sqrt (abs_nonneg _), hsub, Real.sin_pi_div_two_sub]
  rw [abs_div, abs_mul, abs_abs, abs_div]
  have h1 : |Real.cos (deg2rad phi_skew)| ≠ 0 := abs_ne_zero.mpr hc
  have h2 : |alpha| ≠ 0 := abs_ne_zero.mpr ha
  field_simp

/-- Witness for C4 at `alpha = 2`, `phi_skew = 0` (so
`cos(deg2rad 0) = 1 ≠ 0`), sample time 3, frequency 5, phase 7. -/
theorem apply_modulation_det_witness :
    |(apply_modulation 1 0 3 5 7 0 2 0).1 *
        (apply_modulation 0 1 3 5 7 0 2 0).2 -
      (apply_modulation 0 1 3 5 7 0 2 0).1 *
        (apply_modulation 1 0 3 5 7 0 2 0).2| = 1 :=
  apply_modulation_det 3 5 7 0 2 0 two_ne_zero
    (by simp [deg2rad])

/-! ## C7: DRAG envelope vanishes at the clip edges -/

/-- C7: for every `SSB_DRAG_pulse` with positive `sigma`, the masked
Gaussian envelope that `chan_wf` modulates is exactly 0 at the clip edge
`t = tc - half` (offset correction), and is 0 at every `t` with
`t - tc >= half` or `t - tc < -half` (masking), where
`half = nr_sigma * sigma / 2` and `tc = algorithm_time() + half`. -/
theorem ssb_drag_env_zero (p : SSB_DRAG_pulse) (t : ℝ) (hσ : 0 < p.sigma) :
    (t = p.tc - p.half → p.gauss_env t = 0) ∧
    ((p.half ≤ t - p.tc ∨ t - p.tc < -p.half) → p.gauss_env t = 0) := by
  constructor
  · rintro rfl
    rw [SSB_DRAG_pulse.gauss_env,
      show p.tc - p.half - p.tc = -p.half from by ring, neg_sq, sub_self,
      zero_mul]
  · intro h
    rw [SSB_DRAG_pulse.gauss_env]
    simp only [boolInd]
    rcases h with h | h
    · rw [if_neg (not_lt.mpr h)]
      ring
    · rw [if_neg (not_le.mpr h)]
      ring

/-- Witness for C7: with `sigma = 1`, `nr_sigma = 4`, `t0 = 0` the envelope
is `0` at the left clip edge `t = 0 = tc - half` and at `t = 5` beyond the
right edge. -/
theorem ssb_drag_env_zero_witness :
    SSB_DRAG_pulse.gauss_env
        { I_channel := "I", Q_channel := "Q", amplitude := 1, sigma := 1,
          nr_sigma := 4, motzoi := 0, mod_frequency := 0, phase := 0,
          alpha := 1, phi_skew := 0, phaselock := true, t0 := 0 } 0 = 0 ∧
      SSB_DRAG_pulse.gauss_env
        { I_channel := "I", Q_channel := "Q", amplitude := 1, sigma := 1,
          nr_sigma := 4, motzoi := 0, mod_frequency := 0, phase := 0,
          alpha := 1, phi_skew := 0, phaselock := true, t0 := 0 } 5 = 0 :=
  ⟨(ssb_drag_env_zero _ 0 (by norm_num)).1
      (by norm_num [SSB_DRAG_pulse.tc, SSB_DRAG_pulse.half]),
   (ssb_drag_env_zero _ 5 (by norm_num)).2
      (Or.inl (by norm_num [SSB_DRAG_pulse.tc, SSB_DRAG_pulse.half]))⟩

/-! ## C1: BufferedNZFLIPPulse hashables do not determine chan_wf -/

/-- C1: `flipPulseA` and `flipPulseB` differ only in `flux_buffer_length`
(0 versus 1), a parameter that `chan_wf` on the first channel depends on
(it enters the lobe lengths `length1` and `length2`), yet their `hashables`
lists on that channel are equal: equal hashables do not guarantee identical
`chan_wf` output, and a pulse differing in exactly one `chan_wf`-relevant
parameter does not produce different hashables. At sample times `[0, 3/2]`
pulse A yields `[1, -1]` while pulse B yields `[1, 1]`. -/
theorem flip_hashables_collision :
    BufferedNZFLIPPulse.hashables flipPulseA 0 "ch1" =
        BufferedNZFLIPPulse.hashables flipPulseB 0 "ch1" ∧
      BufferedNZFLIPPulse.chan_wf id flipPulseA ("ch1") [0, 3 / 2] ≠
        BufferedNZFLIPPulse.chan_wf id flipPulseB ("ch1") [0, 3 / 2] := by
  have hne : ("ch2" : String) ≠ "ch1" := by decide
  constructor
  · norm_num [BufferedNZFLIPPulse.hashables, BufferedNZFLIPPulse.channels,
      BufferedNZFLIPPulse.amps, BufferedNZFLIPPulse.alphas,
      BufferedNZFLIPPulse.buffer_length_start_d,
      BufferedNZFLIPPulse.buffer_length_end_d,
      BufferedNZFLIPPulse.flux_buffer, flipPulseA, flipPulseB, hne]
  · have hA : BufferedNZFLIPPulse.chan_wf id flipPulseA ("ch1") [0, 3 / 2] =
        [1, -1] := by
      norm_num [BufferedNZFLIPPulse.chan_wf, BufferedNZFLIPPulse.amps,
        BufferedNZFLIPPulse.alphas, BufferedNZFLIPPulse.length1,
        BufferedNZFLIPPulse.length2, BufferedNZFLIPPulse.flux_buffer,
        BufferedNZFLIPPulse.buffer_length_start_d, flipPulseA, boolInd, hne]
    have hB : BufferedNZFLIPPulse.chan_wf id flipPulseB ("ch1") [0, 3 / 2] =
        [1, 1] := by
      norm_num [BufferedNZFLIPPulse.chan_wf, BufferedNZFLIPPulse.amps,
        BufferedNZFLIPPulse.alphas, BufferedNZFLIPPulse.length1,
        BufferedNZFLIPPulse.length2, BufferedNZFLIPPulse.flux_buffer,
        BufferedNZFLIPPulse.buffer_length_start_d, flipPulseB, flipPulseA,
        boolInd, hne]
    rw [hA, hB]
    intro h
    simp only [List.cons.injEq] at h
    norm_num at h

/-! ## C6: range of the Martinis-Geller v2 waveform -/

theorem interpLin_mem (lo hi : ℝ) :
    ∀ (ps : List (ℝ × ℝ)) (t : ℝ),
      List.Chain' (fun u v => u.1 < v.1) ps →
      (∀ pr ∈ ps, lo ≤ pr.2 ∧ pr.2 ≤ hi) →
      2 ≤ ps.length →
      (ps.getD 0 (0, 0)).1 ≤ t →
      t ≤ (ps.getD (ps.length - 1) (0, 0)).1 →
      lo ≤ interpLin ps t ∧ interpLin ps t ≤ hi := by
  intro ps
  induction ps with
  | nil => intro t _ _ hlen _ _; simp at hlen
  | cons p0 tail ih =>
    intro t hch hys hlen hlow hhigh
    cases tail with
    | nil => simp at hlen
    | cons p1 rest =>
      obtain ⟨x0, y0⟩ := p0
      obtain ⟨x1, y1⟩ := p1
      have hx01 : x0 < x1 := (List.chain'_cons.mp hch).1
      have hlow' : x0 ≤ t := by simpa using hlow
      have hy0 := hys (x0, y0) (by simp)
      have hy1 := hys (x1, y1) (by simp)
      by_cases hcase : t < x1 ∨ rest = []
      · rw [interpLin, if_pos hcase]
        set r := (t - x0) / (x1 - x0) with hr
        have hr0 : 0 ≤ r := div_nonneg (by linarith) (by linarith)
        have hr1 : r ≤ 1 := by
          rcases hcase with hlt | hnil
          · exact le_of_lt (by rw [hr, div_lt_one (by linarith)]; linarith)
          · subst hnil
            have hhigh' : t ≤ x1 := by simpa using hhigh
            rw [hr, div_le_one (by linarith)]
            linarith
        have hval : y0 + (y1 - y0) * (t - x0) / (x1 - x0) =
            (1 - r) * y0 + r * y1 := by
          rw [hr]
          field_simp
          ring
        rw [hval]
        constructor
        · nlinarith [hy0.1, hy1.1]
        · nlinarith [hy0.2, hy1.2]
      · push_neg at hcase
        obtain ⟨hge, hne⟩ := hcase
        rw [interpLin, if_neg (by push_neg; exact ⟨hge, hne⟩)]
        apply ih t (List.chain'_cons.mp hch).2
          (fun pr hpr => hys pr (List.mem_cons_of_mem _ hpr))
        · have : rest.length ≠ 0 := fun h0 =>
            hne (List.length_eq_zero.mp h0)
          simp only [List.length_cons]
          omega
        · simpa using hge
        · have hlen2 : ((x0, y0) :: (x1, y1) :: rest).length - 1 =
              ((x1, y1) :: rest).length - 1 + 1 := by
            simp only [List.length_cons]
            omega
          rw [hlen2] at hhigh
          simpa using hhigh

theorem martinis_taus_eq (a : MartinisArgs) (hsr : 0 < a.sampling_rate) :
    MartinisV2.taus a = (List.range (MartinisV2.nrSamples a)).map
      (fun i : ℕ => (i : ℝ) * MartinisV2.tauStep a) := by
  have hsr' : a.sampling_rate ≠ 0 := ne_of_gt hsr
  have harg : (MartinisV2.roundedLength a - MartinisV2.tauStep a / 2 - 0) /
      MartinisV2.tauStep a = (MartinisV2.nrSamples a : ℝ) - 1 / 2 := by
    unfold MartinisV2.roundedLength MartinisV2.tauStep
      MartinisV2.fine_sampling_factor
    field_simp
    ring
  have hceil : ⌈(MartinisV2.nrSamples a : ℝ) - 1 / 2⌉ =
      (MartinisV2.nrSamples a : ℤ) := by
    rw [Int.ceil_eq_iff]
    constructor
    · push_cast
      linarith
    · push_cast
      linarith
  unfold MartinisV2.taus npArange
  rw [harg, hceil, Int.toNat_natCast]
  simp only [zero_add]

theorem martinis_taus_length (a : MartinisArgs) (hsr : 0 < a.sampling_rate) :
    (MartinisV2.taus a).length = MartinisV2.nrSamples a := by
  rw [martinis_taus_eq a hsr]
  simp

theorem martinis_thetaClipped_length (a : MartinisArgs) :
    (MartinisV2.thetaClipped a).length = (MartinisV2.taus a).length := by
  unfold MartinisV2.thetaClipped MartinisV2.thetaStepped MartinisV2.thetaWave
  split_ifs <;> simp <;> omega

theorem martinis_thetaClipped_bounds (a : MartinisArgs)
    (hclip : MartinisV2.clipMin a ≤ Real.pi - 1 / 100) :
    ∀ v ∈ MartinisV2.thetaClipped a,
      MartinisV2.clipMin a ≤ v ∧ v ≤ Real.pi - 1 / 100 := by
  intro v hv
  obtain ⟨w, _, rfl⟩ := List.mem_map.mp hv
  exact ⟨le_min hclip (le_max_left _ _), min_le_left _ _⟩

/-- C6 (amended): for positive sampling rate, `interpolate` disabled, at
least two grid samples and `clip_min ≤ pi - 0.01`, every returned sample
whose sample time does not exceed the last proper-time grid point lies
within `[clip_min, pi - 0.01] ⊆ [clip_min, pi)`. (Sample times beyond the
grid — which arise exactly when `length * sampling_rate` is not an integer —
are linearly extrapolated and can leave this range, as the counterexample
shows.) -/
theorem martinis_v2_within_range (a : MartinisArgs) (j : ℕ)
    (hsr : 0 < a.sampling_rate)
    (hinterp : a.interpolate = false)
    (hns : 2 ≤ MartinisV2.nrSamples a)
    (hclip : MartinisV2.clipMin a ≤ Real.pi - 1 / 100)
    (hj : j < (MartinisV2.tSamples a).length)
    (hwithin : (MartinisV2.tSamples a).getD j 0 ≤
      (MartinisV2.taus a).getD ((MartinisV2.taus a).length - 1) 0) :
    MartinisV2.clipMin a ≤ (martinis_flux_pulse_v2 a).getD j 0 ∧
      (martinis_flux_pulse_v2 a).getD j 0 ≤ Real.pi - 1 / 100 ∧
      (martinis_flux_pulse_v2 a).getD j 0 < Real.pi := by
  have hlen_taus := martinis_taus_length a hsr
  have hlenθ := martinis_thetaClipped_length a
  have hts : 0 < MartinisV2.tauStep a := by
    unfold MartinisV2.tauStep MartinisV2.fine_sampling_factor
    positivity
  set ps := (MartinisV2.taus a).zip (MartinisV2.thetaClipped a) with hps
  have hzlen : ps.length = MartinisV2.nrSamples a := by
    rw [hps, List.length_zip, hlenθ, hlen_taus, min_self]
  set t := (MartinisV2.tSamples a).getD j 0 with ht
  have htI : MartinisV2.tInterp a = MartinisV2.taus a := by
    simp [MartinisV2.tInterp, hinterp]
  have hres : (martinis_flux_pulse_v2 a).getD j 0 = interpLin ps t := by
    rw [martinis_flux_pulse_v2, htI]
    have hj' : j < ((MartinisV2.tSamples a).map
        (interpLin ((MartinisV2.taus a).zip
          (MartinisV2.thetaClipped a)))).length := by
      simpa using hj
    rw [List.getD_eq_getElem _ _ hj', List.getElem_map,
      ← List.getD_eq_getElem _ _ hj]
  have htval : t = (j : ℝ) * (1 / a.sampling_rate) := by
    rw [ht]
    unfold MartinisV2.tSamples npArange at hj ⊢
    rw [List.getD_eq_getElem _ _ hj, List.getElem_map, List.getElem_range]
    ring
  have ht0 : 0 ≤ t := by
    rw [htval]
    positivity
  have htaus_get : ∀ (i : ℕ) (h : i < (MartinisV2.taus a).length),
      (MartinisV2.taus a)[i] = (i : ℝ) * MartinisV2.tauStep a := by
    intro i h
    have h' : i < ((List.range (MartinisV2.nrSamples a)).map
        (fun i : ℕ => (i : ℝ) * MartinisV2.tauStep a)).length := by
      simpa [← martinis_taus_eq a hsr] using h
    rw [List.getElem_of_eq (martinis_taus_eq a hsr) h, List.getElem_map,
      List.getElem_range]
  have hchain : List.Chain' (fun u v : ℝ × ℝ => u.1 < v.1) ps := by
    rw [List.chain'_iff_get]
    intro i hi
    have hi1 : i < ps.length := by omega
    have hi2 : i + 1 < ps.length := by omega
    have hti1 : i < (MartinisV2.taus a).length := by
      rw [hlen_taus, ← hzlen]
      omega
    have hti2 : i + 1 < (MartinisV2.taus a).length := by
      rw [hlen_taus, ← hzlen]
      omega
    simp only [List.get_eq_getElem, hps, List.getElem_zip]
    rw [htaus_get i hti1, htaus_get (i + 1) hti2]
    have : (i : ℝ) < ((i : ℕ) + 1 : ℕ) := by
      push_cast
      linarith
    push_cast
    nlinarith [hts]
  have hys : ∀ pr ∈ ps, MartinisV2.clipMin a ≤ pr.2 ∧
      pr.2 ≤ Real.pi - 1 / 100 := fun pr hpr =>
    martinis_thetaClipped_bounds a hclip pr.2 (List.of_mem_zip hpr).2
  have hlen2 : 2 ≤ ps.length := by omega
  have hzipD : ∀ i : ℕ, i < ps.length → ps.getD i (0, 0) =
      ((MartinisV2.taus a).getD i 0,
        (MartinisV2.thetaClipped a).getD i 0) := by
    intro i hi
    rw [List.getD_eq_getElem _ _ hi,
      List.getD_eq_getElem _ _ (show i < (MartinisV2.taus a).length by omega),
      List.getD_eq_getElem _ _
        (show i < (MartinisV2.thetaClipped a).length by omega)]
    exact List.getElem_zip
  have hhead : (ps.getD 0 (0, 0)).1 ≤ t := by
    rw [hzipD 0 (by omega)]
    have h0' : 0 < (MartinisV2.taus a).length := by omega
    rw [show ((MartinisV2.taus a).getD 0 0,
        (MartinisV2.thetaClipped a).getD 0 0).1 =
      (MartinisV2.taus a).getD 0 0 from rfl]
    rw [List.getD_eq_getElem _ _ h0', htaus_get 0 h0']
    simpa using ht0
  have hlast : t ≤ (ps.getD (ps.length - 1) (0, 0)).1 := by
    rw [hzipD (ps.length - 1) (by omega)]
    rw [show ((MartinisV2.taus a).getD (ps.length - 1) 0,
        (MartinisV2.thetaClipped a).getD (ps.length - 1) 0).1 =
      (MartinisV2.taus a).getD (ps.length - 1) 0 from rfl]
    rw [show ps.length - 1 = (MartinisV2.taus a).length - 1 by omega]
    exact hwithin
  have hmem := interpLin_mem (MartinisV2.clipMin a) (Real.pi - 1 / 100) ps t
    hchain hys hlen2 hhead hlast
  rw [hres]
  refine ⟨hmem.1, hmem.2, lt_of_le_of_lt hmem.2 (by norm_num)⟩

/-- Witness for C6 at `martinisWArgs` (`length * sampling_rate = 2`, an
integer, so every sample time lies on the proper-time grid), sample
index 1. -/
theorem martinis_v2_within_range_witness :
    MartinisV2.clipMin martinisWArgs ≤
        (martinis_flux_pulse_v2 martinisWArgs).getD 1 0 ∧
      (martinis_flux_pulse_v2 martinisWArgs).getD 1 0 ≤ Real.pi - 1 / 100 ∧
      (martinis_flux_pulse_v2 martinisWArgs).getD 1 0 < Real.pi := by
  have hπ3 := Real.pi_gt_three
  have hsr : (0 : ℝ) < martinisWArgs.sampling_rate := by
    norm_num [martinisWArgs]
  have harg : martinisWArgs.length * martinisWArgs.sampling_rate *
      MartinisV2.fine_sampling_factor = 2 := by
    norm_num [martinisWArgs, MartinisV2.fine_sampling_factor]
  have hfl : (⌊(2 : ℝ)⌋ : ℤ) = 2 := by
    rw [Int.floor_eq_iff]
    norm_num
  have hN : MartinisV2.nrSamples martinisWArgs = 2 := by
    rw [MartinisV2.nrSamples, harg, npRoundHalfEven, hfl]
    norm_num
    rfl
  have hts : MartinisV2.tauStep martinisWArgs = 1 := by
    norm_num [MartinisV2.tauStep, MartinisV2.fine_sampling_factor,
      martinisWArgs]
  have htaus : MartinisV2.taus martinisWArgs = [0, 1] := by
    rw [martinis_taus_eq _ hsr, hN, hts]
    norm_num [List.range_succ]
  have htS : MartinisV2.tSamples martinisWArgs = [0, 1] := by
    rw [MartinisV2.tSamples, npArange]
    have hc : (⌈(martinisWArgs.length - 0) /
        (1 / martinisWArgs.sampling_rate)⌉ : ℤ) = 2 := by
      rw [Int.ceil_eq_iff]
      norm_num [martinisWArgs]
    rw [hc, show Int.toNat 2 = 2 from rfl]
    norm_num [List.range_succ, martinisWArgs]
  refine martinis_v2_within_range martinisWArgs 1 hsr rfl (by rw [hN])
    ?_ ?_ ?_
  · norm_num [MartinisV2.clipMin, martinisWArgs]
    linarith
  · rw [htS]
    norm_num
  · rw [htS, htaus]
    norm_num [List.getD]

/-- C6 counterexample: with `length = 4.4`, `sampling_rate = 1` the last
sample time (4) lies beyond the last proper-time grid point (3), the
boundary extrapolation of the clipped trajectory `[1, 1, 2, 1]` evaluates
to `2 + (1 - 2) * (4 - 2) / (3 - 2) = 0`, and `0` is below
`clip_min = theta_i = 1`: the returned array has a sample outside
`[clip_min, pi)`. -/
theorem martinis_v2_escapes_range :
    (martinis_flux_pulse_v2 martinisCeArgs).getD 4 0 = 0 ∧
      ¬ (MartinisV2.clipMin martinisCeArgs ≤
        (martinis_flux_pulse_v2 martinisCeArgs).getD 4 0) := by
  have hπ3 := Real.pi_gt_three
  have hsr : (0 : ℝ) < martinisCeArgs.sampling_rate := by
    norm_num [martinisCeArgs]
  have harg : martinisCeArgs.length * martinisCeArgs.sampling_rate *
      MartinisV2.fine_sampling_factor = 22 / 5 := by
    norm_num [martinisCeArgs, MartinisV2.fine_sampling_factor]
  have hfl : (⌊(22 : ℝ) / 5⌋ : ℤ) = 4 := by
    rw [Int.floor_eq_iff]
    norm_num
  have hN : MartinisV2.nrSamples martinisCeArgs = 4 := by
    rw [MartinisV2.nrSamples, harg, npRoundHalfEven, hfl]
    norm_num
    rfl
  have hRL : MartinisV2.roundedLength martinisCeArgs = 4 := by
    rw [MartinisV2.roundedLength, hN]
    norm_num [MartinisV2.fine_sampling_factor, martinisCeArgs]
  have hts : MartinisV2.tauStep martinisCeArgs = 1 := by
    norm_num [MartinisV2.tauStep, MartinisV2.fine_sampling_factor,
      martinisCeArgs]
  have htaus : MartinisV2.taus martinisCeArgs = [0, 1, 2, 3] := by
    rw [martinis_taus_eq _ hsr, hN, hts]
    norm_num [List.range_succ]
  have hθF : MartinisV2.thetaF martinisCeArgs = 2 := by
    rw [MartinisV2.thetaF, if_neg (by norm_num [martinisCeArgs])]
    norm_num [martinisCeArgs]
  have hlam0 : MartinisV2.lambda0 martinisCeArgs = 0 := by
    norm_num [MartinisV2.lambda0, martinisCeArgs]
  have hnorm : MartinisV2.normOddLambdas martinisCeArgs = 1 := by
    norm_num [MartinisV2.normOddLambdas, MartinisV2.lambda0, martinisCeArgs]
  have hfact : MartinisV2.factorNorm martinisCeArgs = 1 / 2 := by
    rw [MartinisV2.factorNorm, hnorm]
    norm_num
  have hcos0a : Real.cos (2 * Real.pi * 0 / 4) = 1 := by
    rw [show 2 * Real.pi * 0 / 4 = 0 by ring, Real.cos_zero]
  have hcos0b : Real.cos (4 * Real.pi * 0 / 4) = 1 := by
    rw [show 4 * Real.pi * 0 / 4 = 0 by ring, Real.cos_zero]
  have hcos1a : Real.cos (2 * Real.pi * 1 / 4) = 0 := by
    rw [show 2 * Real.pi * 1 / 4 = Real.pi / 2 by ring, Real.cos_pi_div_two]
  have hcos1b : Real.cos (4 * Real.pi * 1 / 4) = -1 := by
    rw [show 4 * Real.pi * 1 / 4 = Real.pi by ring, Real.cos_pi]
  have hcos2a : Real.cos (2 * Real.pi * 2 / 4) = -1 := by
    rw [show 2 * Real.pi * 2 / 4 = Real.pi by ring, Real.cos_pi]
  have hcos2b : Real.cos (4 * Real.pi * 2 / 4) = 1 := by
    rw [show 4 * Real.pi * 2 / 4 = 2 * Real.pi by ring, Real.cos_two_pi]
  have hcos3a : Real.cos (2 * Real.pi * 3 / 4) = 0 := by
    rw [show 2 * Real.pi * 3 / 4 = Real.pi + Real.pi / 2 by ring,
      Real.cos_add]
    norm_num [Real.cos_pi, Real.sin_pi, Real.cos_pi_div_two]
  have hcos3b : Real.cos (4 * Real.pi * 3 / 4) = -1 := by
    rw [show 4 * Real.pi * 3 / 4 = Real.pi + 2 * Real.pi by ring,
      Real.cos_add_two_pi, Real.cos_pi]
  have hθw : MartinisV2.thetaWave martinisCeArgs = [1, -(1 / 2), 2,
      -(1 / 2)] := by
    rw [MartinisV2.thetaWave, htaus]
    simp only [List.map_cons, List.map_nil, MartinisV2.dtheta, hRL, hlam0,
      hfact, hθF]
    rw [hcos0a, hcos0b, hcos1a, hcos1b, hcos2a, hcos2b, hcos3a, hcos3b]
    norm_num [martinisCeArgs]
  have hsv : MartinisV2.stepVal martinisCeArgs = 1 := by
    norm_num [MartinisV2.stepVal, martinisCeArgs]
  have hstep : MartinisV2.thetaStepped martinisCeArgs =
      [1, -(1 / 2), 2, 1] := by
    rw [MartinisV2.thetaStepped, hθw, hsv]
    have hawt : martinisCeArgs.apply_wait_time = true := rfl
    have hsf : martinisCeArgs.step_first = false := rfl
    rw [hawt, hsf]
    simp only [if_true, Bool.false_eq_true, if_false]
    norm_num [max_def]
  have hclipmin : MartinisV2.clipMin martinisCeArgs = 1 := by
    norm_num [MartinisV2.clipMin, martinisCeArgs]
  have hθc : MartinisV2.thetaClipped martinisCeArgs = [1, 1, 2, 1] := by
    rw [MartinisV2.thetaClipped, hstep, hclipmin]
    simp only [List.map_cons, List.map_nil, npClip]
    have e1 : min (Real.pi - 1 / 100) (max (1 : ℝ) 1) = 1 := by
      rw [max_self, min_eq_right]
      linarith
    have e2 : min (Real.pi - 1 / 100) (max (1 : ℝ) (-(1 / 2))) = 1 := by
      rw [max_eq_left (by norm_num), min_eq_right (by linarith)]
    have e3 : min (Real.pi - 1 / 100) (max (1 : ℝ) 2) = 2 := by
      rw [max_eq_right (by norm_num), min_eq_right (by linarith)]
    rw [e1, e2, e3]
  have htS : MartinisV2.tSamples martinisCeArgs = [0, 1, 2, 3, 4] := by
    rw [MartinisV2.tSamples, npArange]
    have hc : (⌈(martinisCeArgs.length - 0) /
        (1 / martinisCeArgs.sampling_rate)⌉ : ℤ) = 5 := by
      rw [Int.ceil_eq_iff]
      norm_num [martinisCeArgs]
    rw [hc, show Int.toNat 5 = 5 from rfl]
    norm_num [List.range_succ, martinisCeArgs]
  have htI : MartinisV2.tInterp martinisCeArgs = [0, 1, 2, 3] := by
    rw [MartinisV2.tInterp, if_neg (by
      rw [show martinisCeArgs.interpolate = false from rfl]
      simp)]
    exact htaus
  have hval : (martinis_flux_pulse_v2 martinisCeArgs).getD 4 0 =
      interpLin [((0 : ℝ), (1 : ℝ)), (1, 1), (2, 2), (3, 1)] 4 := by
    rw [martinis_flux_pulse_v2, htI, hθc, htS]
    norm_num [List.zip]
  have hinterp4 : interpLin [((0 : ℝ), (1 : ℝ)), (1, 1), (2, 2), (3, 1)] 4
      = 0 := by
    simp only [interpLin]
    norm_num
    all_goals simp
  rw [hval, hinterp4, hclipmin]
  norm_num

end PycQED
